import Mathlib

/-!
QueueCTL: job lifecycle and execution engine.

A shallow embedding of `worker.js` (`Runjob`, `processJobs`), of
`utils/persistance.js` (`loadJobs`, `saveJobs`) and of the `dlq retry` and
`enqueue` actions of `queuectl.js`, followed by the properties of the job
state machine, of the retry loop and of the persisted collection.

Conventions of the embedding.

* A job record is the JSON object written by `enqueue`.  Timestamps are
  abstract clock readings (`Nat`); `new Date().toISOString()` is the reading of
  the clock at the moment the statement runs and is passed in as `now`.
* `jobs.json` is `Option (List Job)`: `none` is an absent or unparsable file.
* A log file is the text it holds; the log directory is a map from the job id
  (the file is `<id>.log`) to the text, `none` when the file does not exist.
* An asynchronous function is cut at its callbacks: the synchronous prologue
  and each callback are functions on the state, and what the environment
  decides (how the child process ends, what it prints, when a timer fires) is
  an input.
-/

namespace QueueCTL

/-! ## Data model -/

/-- The values the `state` field takes in the sources: `'pending'`,
`'processing'`, `'completed'`, `'failed'`, `'dead'`, the re-queued state
`'retry'` that `processJobs` also accepts, and any other string a stored record
may carry. -/
inductive JobState where
  | pending
  | processing
  | completed
  | failed
  | dead
  | retry
  | other (s : String)
deriving DecidableEq, Repr

/-- A job record, with the fields `enqueue` writes (`queuectl.js` lines 28-36). -/
structure Job where
  id : String
  command : String
  state : JobState
  attempts : Nat
  max_retries : Nat
  created_at : Nat
  updated_at : Nat
deriving DecidableEq, Repr

/-! ## Persistence (`utils/persistance.js`) -/

/-- The content of `jobs.json`: `none` when the file is absent or does not
parse. -/
abbrev Disk := Option (List Job)

/-- `loadJobs()`: the stored collection, `[]` when the file is absent or
unparsable. -/
def loadJobs (d : Disk) : List Job :=
  match d with
  | none => []
  | some js => js

/-- `saveJobs(jobs)`: the file is replaced by the serialised collection. -/
def saveJobs (_d : Disk) (jobs : List Job) : Disk :=
  some jobs

/-- The arrow function `j => j.id === job.id ? job : j` of `worker.js` lines 19,
77 and 102. -/
def replaceById (job : Job) (j : Job) : Job :=
  if j.id = job.id then job else j

/-- The upsert of the worker, `saveJobs(loadJobs().map(j => j.id === job.id ? job : j))`
(`worker.js` lines 19 and 77). -/
def upsert (d : Disk) (job : Job) : Disk :=
  saveJobs d ((loadJobs d).map (replaceById job))

/-! ## Log files -/

/-- The log directory: file name to content, `none` for a file that does not
exist. -/
abbrev Logs := String → Option String

/-- `fs.writeFileSync(file, text)`: the file is created or truncated and holds
`text`. -/
def writeFileSync (logs : Logs) (file text : String) : Logs :=
  fun f => if f = file then some text else logs f

/-- `fs.appendFileSync(file, text)`: `text` is added at the end of the file,
which is created when it does not exist. -/
def appendFileSync (logs : Logs) (file text : String) : Logs :=
  fun f => if f = file then some ((logs f).getD "" ++ text) else logs f

/-- The name of the log of a job inside `LOG_DIR` (`worker.js` line 24). -/
def logFile (job : Job) : String :=
  job.id ++ ".log"

/-- The text written when the log is created (`worker.js` line 25). -/
def logHeader (job : Job) : String :=
  "--- Log for Job " ++ job.id ++ " ---\nCommand: " ++ job.command ++ "\n\n"

/-- The string a `state` value is stored and printed as. -/
def JobState.name : JobState → String
  | .pending => "pending"
  | .processing => "processing"
  | .completed => "completed"
  | .failed => "failed"
  | .dead => "dead"
  | .retry => "retry"
  | .other s => s

/-- The decimal text of `timeoutMs / 1000` as the template strings of
`worker.js` lines 21, 63 and 64 print it (at most three fractional digits,
trailing zeros dropped). -/
def fmtSeconds (ms : Nat) : String :=
  let q := ms / 1000
  let r := ms % 1000
  if r = 0 then toString q
  else if r % 100 = 0 then toString q ++ "." ++ toString (r / 100)
  else if r % 10 = 0 then
    toString q ++ "." ++ (if r < 100 then "0" else "") ++ toString (r / 10)
  else
    toString q ++ "." ++ (if r < 10 then "00" else if r < 100 then "0" else "") ++ toString r

/-! ## `Runjob` (`worker.js` lines 15-81) -/

/-- `DEFAULT_JOB_TIMEOUT` (`worker.js` line 8). -/
def DEFAULT_JOB_TIMEOUT : Nat := 10000

/-- The files the worker reads and writes: `jobs.json` and the log directory. -/
structure Files where
  disk : Disk
  logs : Logs

/-- The arguments `(error, stdout, stderr)` the completion callback of `exec`
receives, and the clock reading when it runs.  `error` is `error.message` when
the command could not be launched, exited non-zero or was killed, and `none`
when it exited with code 0. -/
structure ExecResult where
  error : Option String
  stdout : String
  stderr : String
  time : Nat

/-- The synchronous prologue of `Runjob` (lines 18-25): the job is marked
`processing`, the collection is saved with the job's record replaced, and the
log file is written with the header.  Lines 28 and 62 then start the child
process and arm the timer. -/
def RunjobStart (fs : Files) (job : Job) : Files × Job :=
  let job1 := { job with state := JobState.processing }
  let disk1 := upsert fs.disk job1
  let logs1 := writeFileSync fs.logs (logFile job1) (logHeader job1)
  ({ disk := disk1, logs := logs1 }, job1)

/-- The `data` listeners of lines 58-59: a chunk of the child's output is
appended to the log. -/
def dataCallback (fs : Files) (job : Job) (chunk : String) : Files :=
  { fs with logs := appendFileSync fs.logs (logFile job) chunk }

/-- The completion callback of `exec` (lines 28-55).  `(job.attempts || 0) + 1`
is `job.attempts + 1` on a number.  The callback stamps `updated_at`, appends
to the log and resolves the promise; it does not save the collection. -/
def execCallback (maxRetry : Nat) (r : ExecResult) (fs : Files) (job : Job) :
    Files × Job :=
  let lf := logFile job
  let logs1 :=
    if r.stdout ≠ "" then appendFileSync fs.logs lf ("STDOUT:\n" ++ r.stdout ++ "\n")
    else fs.logs
  let logs2 :=
    if r.stderr ≠ "" then appendFileSync logs1 lf ("STDERR:\n" ++ r.stderr ++ "\n")
    else logs1
  let logs3 :=
    match r.error with
    | some msg => appendFileSync logs2 lf ("ERROR: " ++ msg ++ "\n")
    | none => logs2
  let job1 :=
    match r.error with
    | some _ =>
      let a := job.attempts + 1
      { job with attempts := a, state := if a > maxRetry then JobState.dead else JobState.failed }
    | none => { job with state := JobState.completed }
  let job2 := { job1 with updated_at := r.time }
  let logs4 := appendFileSync logs3 lf ("\nFinal state: " ++ job2.state.name ++ "\n")
  ({ fs with logs := logs4 }, job2)

/-- The timer callback (lines 62-79): the timeout note is appended to the log,
the child is sent `SIGTERM`, the attempt is counted and decided, `updated_at`
is stamped, the collection is saved and the promise is resolved. -/
def timerCallback (maxRetry timeoutMs now : Nat) (fs : Files) (job : Job) :
    Files × Job :=
  let logs1 := appendFileSync fs.logs (logFile job)
    ("\n⏱ Job timed out after " ++ fmtSeconds timeoutMs ++ "s\n")
  let a := job.attempts + 1
  let job1 := { job with
    attempts := a,
    state := if a > maxRetry then JobState.dead else JobState.failed,
    updated_at := now }
  ({ disk := upsert fs.disk job1, logs := logs1 }, job1)

/-- How one invocation of `Runjob` ends, as decided by the environment.
`exited`: the child ends by itself before the timer; `chunks` are the `data`
events seen before and `r` the arguments of the completion callback.
`timedOut`: the timer fires first at clock reading `now` and sends the child
`SIGTERM`; the completion callback of that child runs afterwards with `late`,
which carries an error when the child was terminated by the signal or ended
non-zero and none when it ended with code 0 all the same. -/
inductive Outcome where
  | exited (chunks : List String) (r : ExecResult)
  | timedOut (chunks : List String) (now : Nat) (late : ExecResult)

/-- The attempt ended in a command failure or in a timeout. -/
def Outcome.failed : Outcome → Bool
  | .exited _ r => r.error.isSome
  | .timedOut _ _ _ => true

/-- The attempt ended in a command failure: the child ended by itself and the
completion callback received an error (non-zero exit or launch error). -/
def Outcome.commandFailed : Outcome → Bool
  | .exited _ r => r.error.isSome
  | .timedOut _ _ _ => false

/-- The attempt succeeded: the child ended by itself with exit code 0. -/
def Outcome.succeeded : Outcome → Bool
  | .exited _ r => r.error.isNone
  | .timedOut _ _ _ => false

/-- `Runjob(job, baseDelay, maxRetry, timeoutMs)` up to the moment its promise
resolves: the prologue, the `data` events, and then the completion callback or
the timer callback, whichever the outcome makes run first.  The result is the
job `await Runjob(...)` yields. -/
def Runjob (_baseDelay maxRetry timeoutMs : Nat) (o : Outcome) (fs : Files) (job : Job) :
    Files × Job :=
  let start := RunjobStart fs job
  match o with
  | .exited chunks r =>
    execCallback maxRetry r (chunks.foldl (fun f c => dataCallback f start.2 c) start.1) start.2
  | .timedOut chunks now _ =>
    timerCallback maxRetry timeoutMs now
      (chunks.foldl (fun f c => dataCallback f start.2 c) start.1) start.2

/-- The completion callback that still runs for the child the timer signalled:
it is the same closure of lines 28-55, with both its branches, applied to the
job object after the promise has been resolved.  Nothing is pending after an
`exited` outcome. -/
def lateCallback (maxRetry : Nat) (o : Outcome) (fs : Files) (job : Job) : Files × Job :=
  match o with
  | .exited _ _ => (fs, job)
  | .timedOut _ _ late => execCallback maxRetry late fs job

/-- One whole execution attempt: `Runjob` until its promise resolves, followed
by the completion callback of the signalled child when the attempt timed out. -/
def RunjobSettled (baseDelay maxRetry timeoutMs : Nat) (o : Outcome) (fs : Files) (job : Job) :
    Files × Job :=
  let r := Runjob baseDelay maxRetry timeoutMs o fs job
  lateCallback maxRetry o r.1 r.2

/-! ## The `dlq retry` action (`queuectl.js` lines 151-167) -/

/-- The assignments of lines 163-164 applied to the object `jobs.find` returned,
that is to the first record of the array whose id is `jobId`; the array holds
the mutated object at the same place. -/
def resetFirst (jobId : String) : List Job → List Job
  | [] => []
  | j :: js =>
    if j.id = jobId then { j with state := JobState.pending, attempts := 0 } :: js
    else j :: resetFirst jobId js

/-- The action of `dlq retry <jobId>`: when no record has the id the action
returns before saving; otherwise the found record is reset and the collection
saved. -/
def dlqRetry (d : Disk) (jobId : String) : Disk :=
  let jobs := loadJobs d
  match jobs.find? (fun j => j.id = jobId) with
  | none => d
  | some _ => saveJobs d (resetFirst jobId jobs)

/-! ## `processJobs`: selection of the batch (`worker.js` lines 87 and 106) -/

/-- The filter of line 87. -/
def eligible (j : Job) : Bool :=
  j.state = JobState.pending || j.state = JobState.retry

/-- Line 87, `jobs.filter(j => j.state === "pending" || j.state === "retry")`. -/
def activeJobs (jobs : List Job) : List Job :=
  jobs.filter eligible

/-- Line 106, `activeJobs.slice(0, workers)` for a non-negative integer
`workers`. -/
def activeBatch (jobs : List Job) (workers : Nat) : List Job :=
  (activeJobs jobs).take workers

/-! ## `processJobs`: the retry loop `runWorker` (`worker.js` lines 90-104) -/

/-- The state one retry loop runs in.  `files` are `jobs.json` and the logs,
`jobs` is the variable `jobs` of `processJobs` that line 102 reassigns, `job`
is the job object the loop was called with (the object `Runjob` mutates and
returns as `updatedJob`), `pending` is what the completion callback of a
signalled child that has not run yet will receive.  `invocations` counts the calls of `Runjob` and
`waits` lists the backoff delays awaited at line 97, in order; both are
bookkeeping that the code does not read. -/
structure Run where
  files : Files
  jobs : List Job
  job : Job
  pending : Option ExecResult
  invocations : Nat
  waits : List Nat

/-- Lines 102-103, `jobs = jobs.map(j => j.id === updatedJob.id ? updatedJob : j);
saveJobs(jobs)`. -/
def persist (s : Run) : Run :=
  let jobs1 := s.jobs.map (replaceById s.job)
  { s with jobs := jobs1, files := { s.files with disk := saveJobs s.files.disk jobs1 } }

/-- What the completion callback of the signalled child of `o` will receive,
when `o` is a timeout. -/
def Outcome.killed : Outcome → Option ExecResult
  | .exited _ _ => none
  | .timedOut _ _ late => some late

/-- The body of `runWorker` for the job of `s`; `outcome n` is how the `n`-th
invocation of `Runjob` of this loop ends, and `getbackoffdelay` is the function
imported from `utils/backoff`.  The recursive call of line 98 consumes one unit
of `fuel`.  `Runjob` is called without a timeout argument, so the default
applies.  After a timeout the loop goes on as soon as the timer callback has
resolved the promise; the completion callback of the signalled child runs during
the backoff wait when the job is retried, and is left `pending` when the loop
ends. -/
def runWorkerLoop (getbackoffdelay : Nat → Nat → Nat) (baseDelay maxRetries : Nat)
    (outcome : Nat → Outcome) : Nat → Nat → Run → Option Run
  | 0, _, _ => none
  | fuel + 1, n, s =>
    let r := Runjob baseDelay maxRetries DEFAULT_JOB_TIMEOUT (outcome n) s.files s.job
    let updatedJob := r.2
    if (updatedJob.state = JobState.retry ∨ updatedJob.state = JobState.failed) ∧
        (updatedJob.state ≠ JobState.dead ∧ updatedJob.attempts ≤ maxRetries) then
      let delay := getbackoffdelay baseDelay updatedJob.attempts
      let l := lateCallback maxRetries (outcome n) r.1 updatedJob
      match runWorkerLoop getbackoffdelay baseDelay maxRetries outcome fuel (n + 1)
          { s with files := l.1, job := l.2, pending := none,
                   invocations := s.invocations + 1, waits := s.waits ++ [delay] } with
      | none => none
      | some s1 => some (persist s1)
    else
      some (persist { s with files := r.1, job := updatedJob, pending := (outcome n).killed,
                             invocations := s.invocations + 1 })

/-- The call `runWorker(job)` of line 107 for the job of `s`.  A retry happens
only with `attempts <= maxRetries` and every failed attempt adds to `attempts`,
so `maxRetries + 1 - attempts + 1` levels of recursion are enough
(`runWorker_terminates`). -/
def runWorker (getbackoffdelay : Nat → Nat → Nat) (baseDelay maxRetries : Nat)
    (outcome : Nat → Outcome) (s : Run) : Option Run :=
  runWorkerLoop getbackoffdelay baseDelay maxRetries outcome
    (maxRetries + 1 - s.job.attempts + 1) 0 s

/-- The completion callback of a signalled child left pending by the loop runs. -/
def settle (maxRetries : Nat) (s : Run) : Run :=
  match s.pending with
  | none => s
  | some k =>
    let r := execCallback maxRetries k s.files s.job
    { s with files := r.1, job := r.2, pending := none }

/-! ## `processJobs` as a whole (`worker.js` lines 83-110)

Several retry loops run in one call of `processJobs`, interleaved at their
`await`s.  JavaScript runs one callback at a time and runs the continuation of
a resolved promise before the next callback, so a run is a sequence of events,
each of which is one callback followed by the continuations it releases.

The array `loadJobs()` returns at line 84 holds one object per record; the
worker passes these objects around by reference and `Runjob` mutates them in
place.  The objects are the `heap`, addressed by their index in the loaded
array, and the variable `jobs` is a list of such references. -/

/-- Where one retry loop is: `running` while a child is alive and the timer is
armed (the `await` of line 91), `waiting` during the backoff delay (the `await`
of line 97), `done` once the outermost call of `runWorker` has returned. -/
inductive Phase where
  | running
  | waiting
  | done
deriving DecidableEq, Repr

/-- The retry loop of one dispatched job.  `ref` is the job object, `depth` the
number of calls of `runWorker` suspended at line 98, `zombies` the number of
signalled children whose completion callback has not run yet; `result` records
the job as the loop left it when it ended (bookkeeping, never read by the
code). -/
structure Task where
  ref : Nat
  phase : Phase
  depth : Nat
  zombies : Nat
  result : Option Job

/-- The state of one call of `processJobs`. -/
structure Pool where
  files : Files
  heap : List Job
  jobs : List Nat
  tasks : List Task
  returned : Bool

/-- What the event loop delivers; `t` is the position of the retry loop in the
batch.  `data`: a chunk of output of a child of the job.  `exit`: the child of
the running attempt ends by itself, the completion callback runs.  `timeout`:
the timer of the running attempt fires.  `lateExit`: a child sent `SIGTERM` by
an earlier timeout ends, its completion callback runs with `r` (an error when
the signal terminated it, none when it ended with code 0).  `backoffElapsed`:
the timer of line 97 fires. -/
inductive Event where
  | data (t : Nat) (chunk : String)
  | exit (t : Nat) (r : ExecResult)
  | timeout (t : Nat) (now : Nat)
  | lateExit (t : Nat) (r : ExecResult)
  | backoffElapsed (t : Nat)

/-- The retry loop an event belongs to. -/
def Event.task : Event → Nat
  | .data t _ => t
  | .exit t _ => t
  | .timeout t _ => t
  | .lateExit t _ => t
  | .backoffElapsed t => t

/-- The references of the batch: the objects of `jobs.filter(...)` (line 87),
cut by `slice(0, workers)` (line 106), in store order. -/
def batchRefs (jobs : List Job) (workers : Nat) : List Nat :=
  ((jobs.enum.filter (fun x => eligible x.2)).take workers).map Prod.fst

/-- The records the variable `jobs` denotes: each reference read in the heap. -/
def derefAll (heap : List Job) (jobs : List Nat) : List Job :=
  jobs.filterMap (fun r => heap[r]?)

/-- Line 102 on references, `jobs.map(j => j.id === updatedJob.id ? updatedJob : j)`
with `updatedJob` the object `u`. -/
def mapRefs (heap : List Job) (u : Nat) (jobs : List Nat) : List Nat :=
  jobs.map (fun r => if (heap[r]?).map Job.id = (heap[u]?).map Job.id then u else r)

/-- Lines 102-103 of one call of `runWorker` whose job object is `u`. -/
def persistRefs (u : Nat) (p : Pool) : Pool :=
  let jobs1 := mapRefs p.heap u p.jobs
  { p with jobs := jobs1,
           files := { p.files with disk := saveJobs p.files.disk (derefAll p.heap jobs1) } }

/-- The continuation of `await Promise.all(...)`: once every retry loop of the
batch has returned, line 109 saves `jobs` and `processJobs` returns. -/
def finish (p : Pool) : Pool :=
  if p.tasks.all (fun k => k.phase = Phase.done) then
    { p with files := { p.files with disk := saveJobs p.files.disk (derefAll p.heap p.jobs) },
             returned := true }
  else p

/-- The prologue of `Runjob` on the job object `ref`. -/
def startAttempt (p : Pool) (ref : Nat) : Option Pool :=
  match p.heap[ref]? with
  | none => none
  | some job =>
    let r := RunjobStart p.files job
    some { p with files := r.1, heap := p.heap.set ref r.2 }

/-- Line 107, `activeBatch.map(runWorker)`: each call of `runWorker` runs up to
its first `await`, that is through the prologue of `Runjob`, in batch order. -/
def dispatch : Pool → List Nat → Option Pool
  | p, [] => some p
  | p, ref :: refs =>
    match startAttempt p ref with
    | none => none
    | some p1 =>
      dispatch
        { p1 with tasks := p1.tasks ++
            [{ ref := ref, phase := Phase.running, depth := 0, zombies := 0, result := none }] }
        refs

/-- `processJobs(baseDelay, maxRetries, workers)` up to its `await`: load,
select the batch, start every retry loop.  With an empty batch the `await`
falls through to line 109 at once. -/
def processJobsStart (workers : Nat) (fs : Files) : Option Pool :=
  let jobs := loadJobs fs.disk
  (dispatch
    { files := fs, heap := jobs, jobs := List.range jobs.length, tasks := [], returned := false }
    (batchRefs jobs workers)).map finish

/-- What runs after `await Runjob(...)` yields `job` in the retry loop `task` at
position `t` (lines 93-103): either the backoff timer is armed, or the loop
ends, every suspended call of `runWorker` of this loop running lines 102-103
in turn, and then `processJobs` returns if this was the last loop. -/
def resume (maxRetries : Nat) (p : Pool) (t : Nat) (task : Task) (job : Job) : Pool :=
  if (job.state = JobState.retry ∨ job.state = JobState.failed) ∧
      (job.state ≠ JobState.dead ∧ job.attempts ≤ maxRetries) then
    { p with tasks := p.tasks.set t { task with phase := Phase.waiting } }
  else
    let p1 := (persistRefs task.ref)^[task.depth + 1] p
    let task1 := { task with phase := Phase.done, result := some job }
    finish { p1 with tasks := p1.tasks.set t task1 }

/-- One event of the run.  `none` when the event cannot happen in this state
(no such loop, no child alive, no timer armed). -/
def step (maxRetries : Nat) (p : Pool) (e : Event) : Option Pool :=
  match p.tasks[e.task]? with
  | none => none
  | some task =>
    match p.heap[task.ref]? with
    | none => none
    | some job =>
      match e with
      | .data _ chunk =>
        if task.phase = Phase.running ∨ 0 < task.zombies then
          some { p with files := dataCallback p.files job chunk }
        else none
      | .exit t r =>
        if task.phase = Phase.running then
          let c := execCallback maxRetries r p.files job
          some (resume maxRetries
            { p with files := c.1, heap := p.heap.set task.ref c.2 } t task c.2)
        else none
      | .timeout t now =>
        if task.phase = Phase.running then
          let c := timerCallback maxRetries DEFAULT_JOB_TIMEOUT now p.files job
          some (resume maxRetries
            { p with files := c.1, heap := p.heap.set task.ref c.2 } t
            { task with zombies := task.zombies + 1 } c.2)
        else none
      | .lateExit t k =>
        if 0 < task.zombies then
          let c := execCallback maxRetries k p.files job
          some { p with files := c.1, heap := p.heap.set task.ref c.2,
                        tasks := p.tasks.set t { task with zombies := task.zombies - 1 } }
        else none
      | .backoffElapsed t =>
        if task.phase = Phase.waiting then
          let task1 := { task with phase := Phase.running, depth := task.depth + 1 }
          (startAttempt p task.ref).map (fun p1 => { p1 with tasks := p1.tasks.set t task1 })
        else none

/-- The events of a run, delivered in order. -/
def runEvents (maxRetries : Nat) : Pool → List Event → Option Pool
  | p, [] => some p
  | p, e :: es =>
    match step maxRetries p e with
    | none => none
    | some p1 => runEvents maxRetries p1 es

/-- The call `processJobs(baseDelay, maxRetries, workers)` on the files `fs`,
followed by the events `es`.  `baseDelay` only sets the length of the backoff
waits, which the order of the events already fixes. -/
def processJobs (_baseDelay maxRetries workers : Nat) (fs : Files) (es : List Event) :
    Option Pool :=
  match processJobsStart workers fs with
  | none => none
  | some p => runEvents maxRetries p es

/-- What every state of a run of `processJobs` satisfies when the loaded
collection `jobs0` has pairwise distinct ids and `batch` are the dispatched
references: the objects keep their ids, the objects outside the batch keep
their loaded value, `jobs` still lists every object at its place, `jobs.json`
holds the same ids in the same order with the records outside the batch
unchanged, and every retry loop belongs to a job of the batch. -/
structure Inv (jobs0 : List Job) (batch : List Nat) (p : Pool) : Prop where
  heap_ids : p.heap.map Job.id = jobs0.map Job.id
  heap_frame : ∀ i, i ∉ batch → p.heap[i]? = jobs0[i]?
  jobs_refs : p.jobs = List.range jobs0.length
  disk_ids : (loadJobs p.files.disk).map Job.id = jobs0.map Job.id
  disk_frame : ∀ i, i ∉ batch → (loadJobs p.files.disk)[i]? = jobs0[i]?
  task_refs : ∀ k ∈ p.tasks, k.ref ∈ batch

/-! ## Relations used in the statements -/

/-- The text of `file` in `l2` is the text of `file` in `l1` with something
appended (an absent file reads as the empty text). -/
def Extends (file : String) (l1 l2 : Logs) : Prop :=
  ∃ t, (l2 file).getD "" = (l1 file).getD "" ++ t

/-! ## Sample data for the concrete evaluations -/

/-- A job as `enqueue` stores it, used in the concrete evaluations below. -/
def sampleJob : Job :=
  { id := "j1", command := "exit 1", state := JobState.pending, attempts := 0,
    max_retries := 3, created_at := 100, updated_at := 100 }

/-- The files in which `sampleJob` is the only stored job and no log exists. -/
def sampleFiles : Files :=
  { disk := some [sampleJob], logs := fun _ => none }

/-- A command failure: the child exits non-zero at clock reading 200. -/
def sampleFailure : ExecResult :=
  { error := some "Command failed: exit 1", stdout := "", stderr := "", time := 200 }

/-- What the completion callback receives for a child terminated by the
`SIGTERM` of the timer, at clock reading 201. -/
def sampleKilled : ExecResult :=
  { error := some "Command failed: exit 1", stdout := "", stderr := "", time := 201 }

/-- What the completion callback receives for a child that ends with code 0
after the `SIGTERM` of the timer, at clock reading 201. -/
def sampleLateSuccess : ExecResult :=
  { error := none, stdout := "", stderr := "", time := 201 }

/-- A completed job stored before the others. -/
def sampleDone : Job :=
  { id := "j0", command := "echo ok", state := JobState.completed, attempts := 0,
    max_retries := 3, created_at := 40, updated_at := 45 }

/-- A dead-lettered job, last stamped at clock reading 100. -/
def sampleDead : Job :=
  { id := "j1", command := "exit 1", state := JobState.dead, attempts := 4,
    max_retries := 3, created_at := 50, updated_at := 100 }

/-- A success: the child exits with code 0 at clock reading 300. -/
def sampleSuccess : ExecResult :=
  { error := none, stdout := "ok", stderr := "", time := 300 }

/-- A backoff function used in the concrete evaluations only; the loop is
stated for every `getbackoffdelay`. -/
def sampleBackoff (baseDelay attempts : Nat) : Nat :=
  baseDelay ^ attempts * 1000

/-- The retry loop about to start for `sampleJob`, as `processJobs` starts it. -/
def sampleRun : Run :=
  { files := sampleFiles, jobs := [sampleJob], job := sampleJob, pending := none,
    invocations := 0, waits := [] }

/-- A job whose command fails on its first run and succeeds, printing `ok`, on
its second. -/
def sampleFlaky : Job :=
  { id := "j2", command := "./flaky.sh", state := JobState.pending, attempts := 0,
    max_retries := 3, created_at := 100, updated_at := 100 }

/-- The files in which `sampleFlaky` is the only stored job and no log exists. -/
def sampleFlakyFiles : Files :=
  { disk := some [sampleFlaky], logs := fun _ => none }

/-- The first run of `./flaky.sh`: exit code 1, nothing printed.  The message
is the one Node builds, `Command failed: ` followed by the command, a newline
and the (empty) standard error. -/
def sampleFlakyFailure : ExecResult :=
  { error := some "Command failed: ./flaky.sh\n", stdout := "", stderr := "", time := 200 }

/-- The second run of `./flaky.sh`: exit code 0, `ok` printed. -/
def sampleFlakySuccess : ExecResult :=
  { error := none, stdout := "ok\n", stderr := "", time := 300 }

/-- The retry loop about to start for `sampleFlaky`. -/
def sampleFlakyRun : Run :=
  { files := sampleFlakyFiles, jobs := [sampleFlaky], job := sampleFlaky, pending := none,
    invocations := 0, waits := [] }

/-- The first attempt of `sampleFlaky`, a command failure. -/
def sampleAttempt1 : Files × Job :=
  Runjob 2 3 DEFAULT_JOB_TIMEOUT (Outcome.exited [] sampleFlakyFailure)
    sampleFlakyFiles sampleFlaky

/-- The second attempt of `sampleFlaky`, a success whose output reaches the
`data` listener as one chunk, started by the retry loop on the files and the
job the first attempt left. -/
def sampleAttempt2 : Files × Job :=
  Runjob 2 3 DEFAULT_JOB_TIMEOUT (Outcome.exited ["ok\n"] sampleFlakySuccess)
    sampleAttempt1.1 sampleAttempt1.2

/-- Three pending jobs stored after a completed one. -/
def sampleA : Job :=
  { id := "a", command := "sleep 60", state := JobState.pending, attempts := 0,
    max_retries := 3, created_at := 60, updated_at := 60 }

/-- The second pending job. -/
def sampleB : Job :=
  { id := "b", command := "sleep 61", state := JobState.pending, attempts := 0,
    max_retries := 3, created_at := 61, updated_at := 61 }

/-- The third pending job. -/
def sampleC : Job :=
  { id := "c", command := "echo c", state := JobState.pending, attempts := 0,
    max_retries := 3, created_at := 62, updated_at := 62 }

/-- The files in which `sampleDone`, `sampleA`, `sampleB` and `sampleC` are
stored, in this order, and no log exists. -/
def sampleStore : Files :=
  { disk := some [sampleDone, sampleA, sampleB, sampleC], logs := fun _ => none }

/-! ## Basic facts -/

section Basic

@[simp] theorem loadJobs_saveJobs (d : Disk) (jobs : List Job) :
    loadJobs (saveJobs d jobs) = jobs := rfl

@[simp] theorem replaceById_id (job j : Job) : (replaceById job j).id = j.id := by
  unfold replaceById
  split
  · next h => exact h.symm
  · rfl

theorem replaceById_self (job : Job) : replaceById job job = job := by
  simp [replaceById]

theorem map_replaceById_ids (job : Job) (jobs : List Job) :
    (jobs.map (replaceById job)).map Job.id = jobs.map Job.id := by
  induction jobs with
  | nil => rfl
  | cons j js ih => simp [ih]

theorem map_replaceById_of_forall_ne (job : Job) (jobs : List Job)
    (h : ∀ j ∈ jobs, j.id ≠ job.id) : jobs.map (replaceById job) = jobs := by
  induction jobs with
  | nil => rfl
  | cons j js ih =>
    have hj : j.id ≠ job.id := h j (by simp)
    have hjs : ∀ x ∈ js, x.id ≠ job.id := fun x hx => h x (by simp [hx])
    simp [replaceById, hj, ih hjs]

@[simp] theorem RunjobStart_job (fs : Files) (job : Job) :
    (RunjobStart fs job).2 = { job with state := JobState.processing } := rfl

theorem execCallback_job (maxRetry : Nat) (r : ExecResult) (fs : Files) (job : Job) :
    (execCallback maxRetry r fs job).2 =
      match r.error with
      | some _ =>
        { job with
          attempts := job.attempts + 1,
          state := if job.attempts + 1 > maxRetry then JobState.dead else JobState.failed,
          updated_at := r.time }
      | none => { job with state := JobState.completed, updated_at := r.time } := by
  unfold execCallback
  cases r.error <;> rfl

@[simp] theorem timerCallback_job (maxRetry timeoutMs now : Nat) (fs : Files) (job : Job) :
    (timerCallback maxRetry timeoutMs now fs job).2 =
      { job with
        attempts := job.attempts + 1,
        state := if job.attempts + 1 > maxRetry then JobState.dead else JobState.failed,
        updated_at := now } := rfl

/-- The job `await Runjob(...)` yields, as a function of the outcome alone. -/
theorem Runjob_job (baseDelay maxRetry timeoutMs : Nat) (o : Outcome) (fs : Files) (job : Job) :
    (Runjob baseDelay maxRetry timeoutMs o fs job).2 =
      match o with
      | .exited _ r =>
        (match r.error with
         | some _ =>
           { job with
             attempts := job.attempts + 1,
             state := if job.attempts + 1 > maxRetry then JobState.dead else JobState.failed,
             updated_at := r.time }
         | none => { job with state := JobState.completed, updated_at := r.time })
      | .timedOut _ now _ =>
        { job with
          attempts := job.attempts + 1,
          state := if job.attempts + 1 > maxRetry then JobState.dead else JobState.failed,
          updated_at := now } := by
  cases o with
  | exited chunks r =>
    simp only [Runjob, execCallback_job, RunjobStart_job]
  | timedOut chunks now late => rfl

/-- The job after the whole attempt, as a function of the outcome alone. -/
theorem RunjobSettled_job (baseDelay maxRetry timeoutMs : Nat) (o : Outcome) (fs : Files)
    (job : Job) :
    (RunjobSettled baseDelay maxRetry timeoutMs o fs job).2 =
      match o with
      | .exited _ r =>
        (match r.error with
         | some _ =>
           { job with
             attempts := job.attempts + 1,
             state := if job.attempts + 1 > maxRetry then JobState.dead else JobState.failed,
             updated_at := r.time }
         | none => { job with state := JobState.completed, updated_at := r.time })
      | .timedOut _ _ late =>
        (match late.error with
         | some _ =>
           { job with
             attempts := job.attempts + 2,
             state := if job.attempts + 2 > maxRetry then JobState.dead else JobState.failed,
             updated_at := late.time }
         | none =>
           { job with
             attempts := job.attempts + 1,
             state := JobState.completed,
             updated_at := late.time }) := by
  cases o with
  | exited chunks r =>
    simp only [RunjobSettled, lateCallback, Runjob_job]
  | timedOut chunks now late =>
    simp only [RunjobSettled, lateCallback, execCallback_job, Runjob_job]

end Basic

/-! ## The upsert of the worker -/

/-- C6: the upsert of the worker (load, map by id, save) yields a collection of
the same length in which, place by place, a record whose id is the job's id is
replaced by the job and any other record is unchanged; when no stored record
has the job's id the collection is the one that was loaded. -/
theorem upsert_replaces_matching_only (d : Disk) (job : Job) :
    (loadJobs (upsert d job)).length = (loadJobs d).length ∧
    (∀ (i : Nat) (j : Job), (loadJobs d)[i]? = some j →
      (loadJobs (upsert d job))[i]? = some (if j.id = job.id then job else j)) ∧
    ((∀ j ∈ loadJobs d, j.id ≠ job.id) → loadJobs (upsert d job) = loadJobs d) := by
  refine ⟨?_, ?_, ?_⟩
  · simp [upsert]
  · intro i j hj
    simp [upsert, List.getElem?_map, hj, replaceById]
  · intro h
    simp [upsert, map_replaceById_of_forall_ne job _ h]

/-! ## The decision of one attempt -/

/-- C1 (amended): for every job, every outcome of the attempt and every value
of the run-level `maxRetry` argument, the state of the job that the promise of
`Runjob` resolves with (the state set by the callback that ends the attempt:
the completion callback when the child ends by itself, the timer callback on a
timeout) is `dead` if and only if the attempt failed or timed out and the
job's `attempts`, after the attempt is counted, is greater than `maxRetry`; a
failed or timed-out attempt with `attempts <= maxRetry` leaves it `failed`, and
a successful attempt leaves it `completed`.  The job's own `max_retries` is
not read. -/
theorem Runjob_decision_uses_maxRetry (baseDelay maxRetry timeoutMs : Nat) (o : Outcome)
    (fs : Files) (job : Job) :
    ((Runjob baseDelay maxRetry timeoutMs o fs job).2.state = JobState.dead ↔
        (o.failed = true ∧
          (Runjob baseDelay maxRetry timeoutMs o fs job).2.attempts > maxRetry)) ∧
    (o.failed = true →
      (Runjob baseDelay maxRetry timeoutMs o fs job).2.attempts ≤ maxRetry →
      (Runjob baseDelay maxRetry timeoutMs o fs job).2.state = JobState.failed) ∧
    (o.failed = false →
      (Runjob baseDelay maxRetry timeoutMs o fs job).2.state = JobState.completed) := by
  rw [Runjob_job]
  cases o with
  | exited chunks r =>
    obtain ⟨e, so, se, t⟩ := r
    cases e with
    | none => simp [Outcome.failed]
    | some msg =>
      by_cases h : job.attempts + 1 > maxRetry
      · simp [Outcome.failed, h]
      · simp [Outcome.failed, h]
  | timedOut chunks now late =>
    by_cases h : job.attempts + 1 > maxRetry <;> simp [Outcome.failed, h]

/-- C1 (as stated, refuted): with the job's own `max_retries = 3` and the
run-level argument `maxRetry = 0`, a first failed attempt leaves the job `dead`
although its `attempts`, 1, is not greater than its `max_retries`. -/
theorem Runjob_ignores_job_max_retries :
    (RunjobSettled 2 0 DEFAULT_JOB_TIMEOUT (Outcome.exited [] sampleFailure)
        sampleFiles sampleJob).2.state = JobState.dead ∧
    (RunjobSettled 2 0 DEFAULT_JOB_TIMEOUT (Outcome.exited [] sampleFailure)
        sampleFiles sampleJob).2.attempts = 1 ∧
    (RunjobSettled 2 0 DEFAULT_JOB_TIMEOUT (Outcome.exited [] sampleFailure)
        sampleFiles sampleJob).2.max_retries = 3 ∧
    ¬ ((RunjobSettled 2 0 DEFAULT_JOB_TIMEOUT (Outcome.exited [] sampleFailure)
          sampleFiles sampleJob).2.state = JobState.dead ↔
        ((Outcome.exited [] sampleFailure).failed = true ∧
          (RunjobSettled 2 0 DEFAULT_JOB_TIMEOUT (Outcome.exited [] sampleFailure)
            sampleFiles sampleJob).2.attempts >
          (RunjobSettled 2 0 DEFAULT_JOB_TIMEOUT (Outcome.exited [] sampleFailure)
            sampleFiles sampleJob).2.max_retries)) := by
  rw [RunjobSettled_job]
  decide

/-- C3 (the code at the failing input): with `maxRetry = 1` and `attempts = 0`,
an attempt that ends in a command failure leaves `attempts = 1` and the state
`failed`, while an attempt that ends in a timeout is counted by the timer
callback and again by the completion callback of the killed child, which leaves
`attempts = 2` and the state `dead`. -/
theorem timeout_attempt_is_counted_twice :
    (RunjobSettled 2 1 DEFAULT_JOB_TIMEOUT (Outcome.exited [] sampleFailure)
        sampleFiles sampleJob).2.attempts = 1 ∧
    (RunjobSettled 2 1 DEFAULT_JOB_TIMEOUT (Outcome.exited [] sampleFailure)
        sampleFiles sampleJob).2.state = JobState.failed ∧
    (Runjob 2 1 DEFAULT_JOB_TIMEOUT (Outcome.timedOut [] 200 sampleKilled)
        sampleFiles sampleJob).2.attempts = 1 ∧
    (RunjobSettled 2 1 DEFAULT_JOB_TIMEOUT (Outcome.timedOut [] 200 sampleKilled)
        sampleFiles sampleJob).2.attempts = 2 ∧
    (RunjobSettled 2 1 DEFAULT_JOB_TIMEOUT (Outcome.timedOut [] 200 sampleKilled)
        sampleFiles sampleJob).2.state = JobState.dead := by
  rw [RunjobSettled_job, RunjobSettled_job, Runjob_job]
  decide

/-- The completion callback of the signalled child is the closure of lines
28-55 with both its branches: when that child ends with code 0, the job the
timer callback left `dead` at `attempts = 1` (with `maxRetry = 0`) is set to
`completed`, its `attempts` staying 1. -/
theorem late_success_overrides_timer_decision :
    (Runjob 2 0 DEFAULT_JOB_TIMEOUT (Outcome.timedOut [] 200 sampleLateSuccess)
        sampleFiles sampleJob).2.state = JobState.dead ∧
    (Runjob 2 0 DEFAULT_JOB_TIMEOUT (Outcome.timedOut [] 200 sampleLateSuccess)
        sampleFiles sampleJob).2.attempts = 1 ∧
    (RunjobSettled 2 0 DEFAULT_JOB_TIMEOUT (Outcome.timedOut [] 200 sampleLateSuccess)
        sampleFiles sampleJob).2.state = JobState.completed ∧
    (RunjobSettled 2 0 DEFAULT_JOB_TIMEOUT (Outcome.timedOut [] 200 sampleLateSuccess)
        sampleFiles sampleJob).2.attempts = 1 := by
  rw [RunjobSettled_job, Runjob_job]
  decide

/-! ## `updated_at` -/

/-- C9 (the code at the failing input): the transition to `processing` at the
start of `Runjob` and the transition to `pending` made by `dlq retry` change
the state of a job last stamped at 100 and save it, and both leave
`updated_at` at 100 whatever the clock reads; the transitions at the end of an
attempt, at clock reading 200, do set `updated_at` to 200. -/
theorem state_change_without_updated_at :
    (RunjobStart sampleFiles sampleJob).2.state = JobState.processing ∧
    (RunjobStart sampleFiles sampleJob).2.updated_at = 100 ∧
    loadJobs (RunjobStart sampleFiles sampleJob).1.disk =
      [{ sampleJob with state := JobState.processing, updated_at := 100 }] ∧
    loadJobs (dlqRetry (some [sampleDead]) "j1") =
      [{ sampleDead with state := JobState.pending, attempts := 0, updated_at := 100 }] ∧
    (execCallback 3 sampleFailure sampleFiles sampleJob).2.updated_at = 200 ∧
    (timerCallback 3 DEFAULT_JOB_TIMEOUT 200 sampleFiles sampleJob).2.updated_at = 200 := by
  refine ⟨rfl, rfl, ?_, ?_, ?_, rfl⟩
  · decide
  · decide
  · rw [execCallback_job]
    rfl

/-! ## The `dlq retry` action -/

section DlqRetry

theorem find?_id_eq_none {jobId : String} {jobs : List Job}
    (h : ∀ j ∈ jobs, j.id ≠ jobId) : jobs.find? (fun j => j.id = jobId) = none := by
  rw [List.find?_eq_none]
  intro j hj
  simpa using h j hj

theorem find?_id_isSome {jobId : String} {jobs : List Job} {j : Job}
    (hj : j ∈ jobs) (hid : j.id = jobId) :
    ∃ x, jobs.find? (fun j => j.id = jobId) = some x := by
  cases hf : jobs.find? (fun j => j.id = jobId) with
  | some x => exact ⟨x, rfl⟩
  | none =>
    rw [List.find?_eq_none] at hf
    have := hf j hj
    simp [hid] at this

theorem resetFirst_getElem? (jobId : String) :
    ∀ (jobs : List Job) (i : Nat) (j : Job),
      (jobs.map Job.id).Nodup → jobs[i]? = some j →
      (resetFirst jobId jobs)[i]? =
        some (if j.id = jobId then { j with state := JobState.pending, attempts := 0 } else j)
  | [], i, j, _, h => by simp at h
  | x :: xs, 0, j, hnd, h => by
    simp only [List.getElem?_cons_zero, Option.some.injEq] at h
    subst h
    by_cases hx : x.id = jobId <;> simp [resetFirst, hx]
  | x :: xs, i + 1, j, hnd, h => by
    simp only [List.getElem?_cons_succ] at h
    have hmem : j ∈ xs := List.getElem?_mem h
    simp only [List.map_cons, List.nodup_cons, List.mem_map, not_exists, not_and] at hnd
    by_cases hx : x.id = jobId
    · have hne : ¬ j.id = jobId := fun hj => hnd.1 j hmem (hj.trans hx.symm)
      simp [resetFirst, hx, h, hne]
    · simp only [resetFirst, hx, if_false, List.getElem?_cons_succ]
      exact resetFirst_getElem? jobId xs i j hnd.2 h

end DlqRetry

/-- C7: in a collection whose ids are pairwise distinct, for every job `j` with
id `jobId` and state `dead`, `dlq retry <jobId>` saves a collection that holds,
at the place of `j`, the record `j` with `attempts = 0` and `state = pending`,
every other record being unchanged, and the eligibility filter of
`processJobs` selects that record from the saved collection; for an id that
matches no job the action saves nothing and the file is unchanged. -/
theorem dlqRetry_resets_dead_job (d : Disk) (jobId : String) :
    (∀ j ∈ loadJobs d, j.id = jobId → j.state = JobState.dead →
      ((loadJobs d).map Job.id).Nodup →
      (∀ (i : Nat) (x : Job), (loadJobs d)[i]? = some x →
        (loadJobs (dlqRetry d jobId))[i]? =
          some (if x.id = jobId then { x with state := JobState.pending, attempts := 0 }
                else x)) ∧
      { j with state := JobState.pending, attempts := 0 } ∈
        activeJobs (loadJobs (dlqRetry d jobId))) ∧
    ((∀ j ∈ loadJobs d, j.id ≠ jobId) → dlqRetry d jobId = d) := by
  constructor
  · intro j hj hid _ hnd
    obtain ⟨x, hx⟩ := find?_id_isSome hj hid
    have hload : loadJobs (dlqRetry d jobId) = resetFirst jobId (loadJobs d) := by
      simp [dlqRetry, hx]
    rw [hload]
    refine ⟨fun i x hx => resetFirst_getElem? jobId _ i x hnd hx, ?_⟩
    obtain ⟨i, hi, hget⟩ := List.mem_iff_getElem.mp hj
    have h1 : (loadJobs d)[i]? = some j := by simp [List.getElem?_eq_getElem hi, hget]
    have h2 := resetFirst_getElem? jobId _ i j hnd h1
    rw [if_pos hid] at h2
    simp only [activeJobs, List.mem_filter]
    exact ⟨List.getElem?_mem h2, by simp [eligible]⟩
  · intro h
    simp [dlqRetry, find?_id_eq_none h]

/-- C7 at a concrete collection: the dead job `j1` stored after a completed job
`j0` is reset in place and selected by the filter, and an unknown id leaves the
file as it is. -/
theorem dlqRetry_resets_dead_job_witness :
    ((loadJobs (dlqRetry (some [sampleDone,
          sampleDead]) "j1"))[1]? =
        some { sampleDead with state := JobState.pending, attempts := 0 } ∧
      { sampleDead with state := JobState.pending, attempts := 0 } ∈
        activeJobs (loadJobs (dlqRetry (some [sampleDone, sampleDead]) "j1"))) ∧
    dlqRetry (some [sampleDead]) "zz" = some [sampleDead] := by
  have h := dlqRetry_resets_dead_job
    (some [sampleDone, sampleDead]) "j1"
  have h1 := h.1 sampleDead (by decide) (by decide) (by decide) (by decide)
  refine ⟨⟨?_, h1.2⟩, ?_⟩
  · have := h1.1 1 sampleDead (by decide)
    simpa using this
  · exact (dlqRetry_resets_dead_job (some [sampleDead]) "zz").2 (by decide)

/-! ## The retry loop -/

section RetryLoop

variable (g : Nat → Nat → Nat) (b m : Nat) (outcome : Nat → Outcome)

@[simp] theorem persist_job (s : Run) : (persist s).job = s.job := rfl

@[simp] theorem persist_invocations (s : Run) : (persist s).invocations = s.invocations := rfl

@[simp] theorem persist_waits (s : Run) : (persist s).waits = s.waits := rfl

@[simp] theorem persist_pending (s : Run) : (persist s).pending = s.pending := rfl

@[simp] theorem persist_jobs (s : Run) : (persist s).jobs = s.jobs.map (replaceById s.job) := rfl

@[simp] theorem persist_disk (s : Run) :
    (persist s).files.disk = some (s.jobs.map (replaceById s.job)) := rfl

@[simp] theorem persist_logs (s : Run) : (persist s).files.logs = s.files.logs := rfl

theorem replaceById_idem (job x : Job) :
    replaceById job (replaceById job x) = replaceById job x := by
  unfold replaceById
  by_cases h : x.id = job.id <;> simp [h]

theorem map_replaceById_idem (job : Job) (jobs : List Job) :
    (jobs.map (replaceById job)).map (replaceById job) = jobs.map (replaceById job) := by
  simp [List.map_map, Function.comp_def, replaceById_idem]

/-- A job that `Runjob` resolves with in state `failed` (or `retry`) has had its
attempt counted. -/
theorem Runjob_attempts_of_failed (o : Outcome) (fs : Files) (job : Job)
    (h : (Runjob b m DEFAULT_JOB_TIMEOUT o fs job).2.state = JobState.retry ∨
      (Runjob b m DEFAULT_JOB_TIMEOUT o fs job).2.state = JobState.failed) :
    (Runjob b m DEFAULT_JOB_TIMEOUT o fs job).2.attempts = job.attempts + 1 := by
  rw [Runjob_job] at h ⊢
  cases o with
  | exited chunks r =>
    obtain ⟨e, so, se, t⟩ := r
    cases e with
    | none => simp at h
    | some msg => rfl
  | timedOut chunks now late => rfl

/-- The completion callback of a signalled child does not lower `attempts`. -/
theorem lateCallback_attempts_ge (o : Outcome) (fs : Files) (job : Job) :
    job.attempts ≤ (lateCallback m o fs job).2.attempts := by
  cases o with
  | exited chunks r => exact Nat.le_refl _
  | timedOut chunks now late =>
    simp only [lateCallback, execCallback_job]
    cases late.error with
    | none => exact Nat.le_refl _
    | some msg => exact Nat.le_succ _

/-- The recursion of `runWorker` ends: with more fuel than `m + 1 - attempts` the
loop returns. -/
theorem runWorkerLoop_returns :
    ∀ (fuel n : Nat) (s : Run), m + 1 - s.job.attempts < fuel →
      ∃ r, runWorkerLoop g b m outcome fuel n s = some r := by
  intro fuel
  induction fuel with
  | zero => intro n s h; omega
  | succ fuel ih =>
    intro n s h
    unfold runWorkerLoop
    simp only
    split
    · next hc =>
      have hle := hc.2.2
      have heq := Runjob_attempts_of_failed b m (outcome n) s.files s.job hc.1
      have hge := lateCallback_attempts_ge m (outcome n)
        (Runjob b m DEFAULT_JOB_TIMEOUT (outcome n) s.files s.job).1
        (Runjob b m DEFAULT_JOB_TIMEOUT (outcome n) s.files s.job).2
      obtain ⟨r, hr⟩ := ih (n + 1)
        { s with
          files := (lateCallback m (outcome n)
            (Runjob b m DEFAULT_JOB_TIMEOUT (outcome n) s.files s.job).1
            (Runjob b m DEFAULT_JOB_TIMEOUT (outcome n) s.files s.job).2).1,
          job := (lateCallback m (outcome n)
            (Runjob b m DEFAULT_JOB_TIMEOUT (outcome n) s.files s.job).1
            (Runjob b m DEFAULT_JOB_TIMEOUT (outcome n) s.files s.job).2).2,
          pending := none,
          invocations := s.invocations + 1,
          waits := s.waits ++
            [g b (Runjob b m DEFAULT_JOB_TIMEOUT (outcome n) s.files s.job).2.attempts] }
        (by simp only; omega)
      rw [hr]
      exact ⟨_, rfl⟩
    · exact ⟨_, rfl⟩

/-- The call `runWorker(job)` returns, whatever the outcomes of its attempts. -/
theorem runWorker_terminates (s : Run) : ∃ r, runWorker g b m outcome s = some r :=
  runWorkerLoop_returns g b m outcome _ 0 s (by omega)

/-- One turn of the loop on a command failure with retries left: the attempt is
counted, the job is `failed`, the backoff delay is awaited and `runWorker` is
called again; lines 102-103 run when that call returns. -/
theorem runWorkerLoop_fail_retry (fuel n : Nat) (s : Run)
    (ho : (outcome n).commandFailed = true) (ha : s.job.attempts + 1 ≤ m) :
    ∃ fs t, runWorkerLoop g b m outcome (fuel + 1) n s =
      (runWorkerLoop g b m outcome fuel (n + 1)
        { s with
          files := fs,
          job := { s.job with
            attempts := s.job.attempts + 1, state := JobState.failed, updated_at := t },
          pending := none,
          invocations := s.invocations + 1,
          waits := s.waits ++ [g b (s.job.attempts + 1)] }).map persist := by
  cases hO : outcome n with
  | timedOut chunks now late => simp [hO, Outcome.commandFailed] at ho
  | exited chunks r =>
    obtain ⟨e, so, se, t⟩ := r
    cases e with
    | none => simp [hO, Outcome.commandFailed] at ho
    | some msg =>
      have hj := Runjob_job b m DEFAULT_JOB_TIMEOUT (outcome n) s.files s.job
      rw [hO] at hj
      simp only [show ¬ (s.job.attempts + 1 > m) by omega, if_false] at hj
      refine ⟨(Runjob b m DEFAULT_JOB_TIMEOUT (outcome n) s.files s.job).1, t, ?_⟩
      rw [runWorkerLoop]
      simp only [hO] at hj ⊢
      simp only [hj, lateCallback]
      rw [if_pos ⟨Or.inr trivial, by simp, ha⟩]
      cases runWorkerLoop g b m outcome fuel (n + 1) _ <;> rfl

/-- One turn of the loop on a command failure with no retry left: the attempt is
counted, the job is `dead` and the loop ends with lines 102-103. -/
theorem runWorkerLoop_fail_dead (fuel n : Nat) (s : Run)
    (ho : (outcome n).commandFailed = true) (ha : m < s.job.attempts + 1) :
    ∃ fs t, runWorkerLoop g b m outcome (fuel + 1) n s =
      some (persist
        { s with
          files := fs,
          job := { s.job with
            attempts := s.job.attempts + 1, state := JobState.dead, updated_at := t },
          pending := none,
          invocations := s.invocations + 1 }) := by
  cases hO : outcome n with
  | timedOut chunks now late => simp [hO, Outcome.commandFailed] at ho
  | exited chunks r =>
    obtain ⟨e, so, se, t⟩ := r
    cases e with
    | none => simp [hO, Outcome.commandFailed] at ho
    | some msg =>
      have hj := Runjob_job b m DEFAULT_JOB_TIMEOUT (outcome n) s.files s.job
      rw [hO] at hj
      simp only [show s.job.attempts + 1 > m by omega, if_true] at hj
      refine ⟨(Runjob b m DEFAULT_JOB_TIMEOUT (outcome n) s.files s.job).1, t, ?_⟩
      rw [runWorkerLoop]
      simp only [hO] at hj ⊢
      simp only [hj]
      rw [if_neg (by simp)]
      rfl

/-- One turn of the loop on a success: the job is `completed`, `attempts` is
not touched, and the loop ends with lines 102-103. -/
theorem runWorkerLoop_success (fuel n : Nat) (s : Run)
    (ho : (outcome n).succeeded = true) :
    ∃ fs t, runWorkerLoop g b m outcome (fuel + 1) n s =
      some (persist
        { s with
          files := fs,
          job := { s.job with state := JobState.completed, updated_at := t },
          pending := none,
          invocations := s.invocations + 1 }) := by
  cases hO : outcome n with
  | timedOut chunks now late => simp [hO, Outcome.succeeded] at ho
  | exited chunks r =>
    obtain ⟨e, so, se, t⟩ := r
    cases e with
    | some msg => simp [hO, Outcome.succeeded] at ho
    | none =>
      have hj := Runjob_job b m DEFAULT_JOB_TIMEOUT (outcome n) s.files s.job
      rw [hO] at hj
      refine ⟨(Runjob b m DEFAULT_JOB_TIMEOUT (outcome n) s.files s.job).1, t, ?_⟩
      rw [runWorkerLoop]
      simp only [hO] at hj ⊢
      simp only [hj]
      rw [if_neg (by simp)]
      rfl

/-- Whatever the loop does, when it returns the variable `jobs` is the initial
one with the job's record replaced by the job as the loop left it, and that is
what `jobs.json` holds. -/
theorem runWorkerLoop_persisted :
    ∀ (fuel n : Nat) (s r : Run), runWorkerLoop g b m outcome fuel n s = some r →
      r.jobs = s.jobs.map (replaceById r.job) ∧ r.files.disk = some r.jobs := by
  intro fuel
  induction fuel with
  | zero => intro n s r h; simp [runWorkerLoop] at h
  | succ fuel ih =>
    intro n s r h
    rw [runWorkerLoop] at h
    simp only at h
    split at h
    · split at h
      · simp at h
      · next s1 hs1 =>
        have := ih _ _ _ hs1
        simp only [Option.some.injEq] at h
        subst h
        simp only [persist_jobs, persist_job, persist_disk, this.1, map_replaceById_idem]
        exact ⟨trivial, trivial⟩
    · simp only [Option.some.injEq] at h
      subst h
      simp only [persist_jobs, persist_job, persist_disk, map_replaceById_idem]
      exact ⟨trivial, trivial⟩

theorem range_succ_map_shift (f : Nat → Nat) (d : Nat) :
    (List.range (d + 1)).map f = f 0 :: (List.range d).map (fun i => f (i + 1)) := by
  rw [List.range_succ_eq_map]
  simp [List.map_map, Function.comp_def]

/-- A command that fails on every attempt: from `attempts + d = m` the loop makes
`d + 1` invocations and `d` waits and leaves the job `dead` with
`attempts = m + 1`. -/
theorem runWorkerLoop_all_fail (hfail : ∀ i, (outcome i).commandFailed = true) :
    ∀ (d fuel n : Nat) (s : Run), s.job.attempts + d = m → d < fuel →
      ∃ r, runWorkerLoop g b m outcome fuel n s = some r ∧
        r.job.state = JobState.dead ∧ r.job.attempts = m + 1 ∧
        r.invocations = s.invocations + d + 1 ∧
        r.waits = s.waits ++ (List.range d).map (fun i => g b (s.job.attempts + 1 + i)) ∧
        r.pending = none := by
  intro d
  induction d with
  | zero =>
    intro fuel n s ha hf
    obtain ⟨fuel, rfl⟩ : ∃ f, fuel = f + 1 := ⟨fuel - 1, by omega⟩
    obtain ⟨fs, t, h⟩ := runWorkerLoop_fail_dead g b m outcome fuel n s (hfail n) (by omega)
    refine ⟨_, h, ?_⟩
    simp
    omega
  | succ d ih =>
    intro fuel n s ha hf
    obtain ⟨fuel, rfl⟩ : ∃ f, fuel = f + 1 := ⟨fuel - 1, by omega⟩
    obtain ⟨fs, t, h⟩ := runWorkerLoop_fail_retry g b m outcome fuel n s (hfail n) (by omega)
    obtain ⟨r, hr, h1, h2, h3, h4, h5⟩ := ih fuel (n + 1)
      { s with
        files := fs,
        job := { s.job with
          attempts := s.job.attempts + 1, state := JobState.failed, updated_at := t },
        pending := none,
        invocations := s.invocations + 1,
        waits := s.waits ++ [g b (s.job.attempts + 1)] }
      (by simp only; omega) (by omega)
    dsimp only at h3 h4
    refine ⟨persist r, ?_, ?_⟩
    · rw [h, hr]; rfl
    · simp only [persist_job, persist_invocations, persist_waits, persist_pending]
      refine ⟨h1, h2, by rw [h3]; omega, ?_, h5⟩
      rw [h4, range_succ_map_shift (fun i => g b (s.job.attempts + 1 + i))]
      simp only [List.append_assoc, List.singleton_append, Nat.add_zero]
      congr 2
      apply List.map_congr_left
      intro i _
      congr 1
      omega

/-- A command that fails on `d` attempts in a row and then succeeds, with
`attempts + d <= m`: the loop makes `d + 1` invocations and `d` waits and leaves
the job `completed` with `attempts` raised by `d`, the number of failures. -/
theorem runWorkerLoop_fail_then_succeed :
    ∀ (d fuel n : Nat) (s : Run), s.job.attempts + d ≤ m → d < fuel →
      (∀ i, i < d → (outcome (n + i)).commandFailed = true) →
      (outcome (n + d)).succeeded = true →
      ∃ r, runWorkerLoop g b m outcome fuel n s = some r ∧
        r.job.state = JobState.completed ∧ r.job.attempts = s.job.attempts + d ∧
        r.invocations = s.invocations + d + 1 ∧
        r.waits = s.waits ++ (List.range d).map (fun i => g b (s.job.attempts + 1 + i)) ∧
        r.pending = none := by
  intro d
  induction d with
  | zero =>
    intro fuel n s ha hf _ hs
    obtain ⟨fuel, rfl⟩ : ∃ f, fuel = f + 1 := ⟨fuel - 1, by omega⟩
    obtain ⟨fs, t, h⟩ := runWorkerLoop_success g b m outcome fuel n s hs
    refine ⟨_, h, ?_⟩
    simp
  | succ d ih =>
    intro fuel n s ha hf hfail hs
    obtain ⟨fuel, rfl⟩ : ∃ f, fuel = f + 1 := ⟨fuel - 1, by omega⟩
    obtain ⟨fs, t, h⟩ := runWorkerLoop_fail_retry g b m outcome fuel n s
      (by simpa using hfail 0 (by omega)) (by omega)
    obtain ⟨r, hr, h1, h2, h3, h4, h5⟩ := ih fuel (n + 1)
      { s with
        files := fs,
        job := { s.job with
          attempts := s.job.attempts + 1, state := JobState.failed, updated_at := t },
        pending := none,
        invocations := s.invocations + 1,
        waits := s.waits ++ [g b (s.job.attempts + 1)] }
      (by simp only; omega) (by omega)
      (fun i hi => by
        have := hfail (i + 1) (by omega)
        rwa [show n + (i + 1) = n + 1 + i by omega] at this)
      (by rwa [show n + (d + 1) = n + 1 + d by omega] at hs)
    dsimp only at h2 h3 h4
    refine ⟨persist r, ?_, ?_⟩
    · rw [h, hr]; rfl
    · simp only [persist_job, persist_invocations, persist_waits, persist_pending]
      refine ⟨h1, by rw [h2]; omega, by rw [h3]; omega, ?_, h5⟩
      rw [h4, range_succ_map_shift (fun i => g b (s.job.attempts + 1 + i))]
      simp only [List.append_assoc, List.singleton_append, Nat.add_zero]
      congr 2
      apply List.map_congr_left
      intro i _
      congr 1
      omega

end RetryLoop

/-- C4: for every `maxRetries = m` and every job with `attempts = 0` whose
command exits non-zero on every attempt, `runWorker` returns after exactly
`m + 1` invocations of `Runjob` and exactly `m` backoff waits (the delays of
attempts 1 to `m`), with the job `dead`, `attempts = m + 1`, and that record
saved in the collection. -/
theorem runWorker_always_failing_job_dies (getbackoffdelay : Nat → Nat → Nat)
    (baseDelay m : Nat) (outcome : Nat → Outcome) (s : Run)
    (h0 : s.job.attempts = 0) (hfail : ∀ i, (outcome i).commandFailed = true) :
    ∃ r, runWorker getbackoffdelay baseDelay m outcome s = some r ∧
      r.job.state = JobState.dead ∧ r.job.attempts = m + 1 ∧
      r.invocations = s.invocations + (m + 1) ∧
      r.waits = s.waits ++ (List.range m).map (fun i => getbackoffdelay baseDelay (i + 1)) ∧
      r.waits.length = s.waits.length + m ∧
      loadJobs r.files.disk = s.jobs.map (replaceById r.job) := by
  obtain ⟨r, hr, h1, h2, h3, h4, _⟩ :=
    runWorkerLoop_all_fail getbackoffdelay baseDelay m outcome hfail m
      (m + 1 - s.job.attempts + 1) 0 s (by omega) (by omega)
  have hp := runWorkerLoop_persisted getbackoffdelay baseDelay m outcome _ _ _ _ hr
  refine ⟨r, hr, h1, h2, by omega, ?_, ?_, ?_⟩
  · rw [h4, h0]
    congr 1
    apply List.map_congr_left
    intro i _
    congr 1
    omega
  · rw [h4]
    simp
  · rw [hp.2, ← hp.1]
    rfl

/-- C4 at `maxRetries = 2`: three invocations, two waits, `dead` with
`attempts = 3`. -/
theorem runWorker_always_failing_job_dies_witness :
    ∃ r, runWorker sampleBackoff 2 2 (fun _ => Outcome.exited [] sampleFailure) sampleRun
        = some r ∧
      r.job.state = JobState.dead ∧ r.job.attempts = 3 ∧ r.invocations = 3 ∧
      r.waits = [2000, 4000] := by
  obtain ⟨r, hr, h1, h2, h3, h4, _, _⟩ :=
    runWorker_always_failing_job_dies sampleBackoff 2 2
      (fun _ => Outcome.exited [] sampleFailure) sampleRun rfl (fun _ => rfl)
  exact ⟨r, hr, h1, h2, h3, by rw [h4]; decide⟩

/-- C2 (amended): for every `k >= 1` with `k <= maxRetries + 1`, where
`maxRetries` is the argument of the run, and every job with `attempts = 0`
whose command fails on its first `k - 1` attempts and succeeds on attempt `k`,
`runWorker` returns after `k` invocations of `Runjob` with the job
`completed`, `attempts = k - 1` (the number of failed attempts; a success is
not counted) and that record saved in the collection. -/
theorem runWorker_success_on_attempt_k (getbackoffdelay : Nat → Nat → Nat)
    (baseDelay maxRetries : Nat) (outcome : Nat → Outcome) (s : Run) (k : Nat)
    (hk : 1 ≤ k) (hkm : k ≤ maxRetries + 1) (h0 : s.job.attempts = 0)
    (hfail : ∀ i, i + 1 < k → (outcome i).commandFailed = true)
    (hsucc : (outcome (k - 1)).succeeded = true) :
    ∃ r, runWorker getbackoffdelay baseDelay maxRetries outcome s = some r ∧
      r.job.state = JobState.completed ∧ r.job.attempts = k - 1 ∧
      r.invocations = s.invocations + k ∧
      loadJobs r.files.disk = s.jobs.map (replaceById r.job) := by
  obtain ⟨r, hr, h1, h2, h3, _, _⟩ :=
    runWorkerLoop_fail_then_succeed getbackoffdelay baseDelay maxRetries outcome (k - 1)
      (maxRetries + 1 - s.job.attempts + 1) 0 s (by omega) (by omega)
      (fun i hi => by simpa using hfail i (by omega))
      (by simpa using hsucc)
  have hp := runWorkerLoop_persisted getbackoffdelay baseDelay maxRetries outcome _ _ _ _ hr
  refine ⟨r, hr, h1, by omega, by omega, ?_⟩
  rw [hp.2, ← hp.1]
  rfl

/-- C2 (amended) at `k = 3`, `maxRetries = 3`: two failures and a success end in
`completed` with `attempts = 2`. -/
theorem runWorker_success_on_attempt_k_witness :
    ∃ r, runWorker sampleBackoff 2 3
        (fun i => if i < 2 then Outcome.exited [] sampleFailure
          else Outcome.exited [] sampleSuccess) sampleRun = some r ∧
      r.job.state = JobState.completed ∧ r.job.attempts = 2 ∧ r.invocations = 3 := by
  obtain ⟨r, hr, h1, h2, h3, _⟩ :=
    runWorker_success_on_attempt_k sampleBackoff 2 3
      (fun i => if i < 2 then Outcome.exited [] sampleFailure
        else Outcome.exited [] sampleSuccess) sampleRun 3 (by decide) (by decide) rfl
      (fun i hi => by
        have : i < 2 := by omega
        simp [this, Outcome.commandFailed, sampleFailure])
      (by decide)
  exact ⟨r, hr, h1, h2, h3⟩

/-- C2 (as stated, refuted): a job that succeeds on its first attempt ends
`completed` with `attempts = 0`, not 1; and a job whose own `max_retries` is 3,
run with `maxRetries = 0`, that fails once and would succeed on its second
attempt (`k = 2 <= max_retries + 1`) is `dead` after one invocation. -/
theorem runWorker_success_is_not_counted :
    (runWorker sampleBackoff 2 3 (fun _ => Outcome.exited [] sampleSuccess) sampleRun).map
        (fun r => (r.job.state, r.job.attempts, r.invocations)) =
      some (JobState.completed, 0, 1) ∧
    (¬ ∃ r, runWorker sampleBackoff 2 3 (fun _ => Outcome.exited [] sampleSuccess) sampleRun
        = some r ∧ r.job.state = JobState.completed ∧ r.job.attempts = 1) ∧
    (runWorker sampleBackoff 2 0
        (fun i => if i < 1 then Outcome.exited [] sampleFailure
          else Outcome.exited [] sampleSuccess) sampleRun).map
        (fun r => (r.job.state, r.job.attempts, r.job.max_retries, r.invocations)) =
      some (JobState.dead, 1, 3, 1) := by
  refine ⟨by decide, ?_, by decide⟩
  rintro ⟨r, hr, _, h⟩
  have h1 : (runWorker sampleBackoff 2 3 (fun _ => Outcome.exited [] sampleSuccess)
      sampleRun).map (fun r => r.job.attempts) = some 0 := by decide
  rw [hr] at h1
  simp only [Option.map_some', Option.some.injEq] at h1
  omega

/-! ## The per-job log -/

section Log

theorem Extends.rfl (file : String) (l : Logs) : Extends file l l :=
  ⟨"", by simp⟩

theorem Extends.trans {file : String} {l1 l2 l3 : Logs}
    (h12 : Extends file l1 l2) (h23 : Extends file l2 l3) : Extends file l1 l3 := by
  obtain ⟨t, ht⟩ := h12
  obtain ⟨u, hu⟩ := h23
  exact ⟨t ++ u, by rw [hu, ht, String.append_assoc]⟩

theorem appendFileSync_same (l : Logs) (file text : String) :
    (appendFileSync l file text) file = some ((l file).getD "" ++ text) := by
  simp [appendFileSync]

theorem appendFileSync_extends (l : Logs) (file text : String) :
    Extends file l (appendFileSync l file text) :=
  ⟨text, by simp [appendFileSync_same]⟩

theorem appendFileSync_isSome (l : Logs) (file text : String) :
    ((appendFileSync l file text) file).isSome = true := by
  simp [appendFileSync_same]

theorem some_append_of_extends {file : String} {l1 l2 : Logs}
    (h : Extends file l1 l2) (hs : (l2 file).isSome = true) :
    ∃ t, l2 file = some ((l1 file).getD "" ++ t) := by
  obtain ⟨t, ht⟩ := h
  refine ⟨t, ?_⟩
  cases h2 : l2 file with
  | none => simp [h2] at hs
  | some x => simpa [h2] using ht

theorem dataCallback_extends (fs : Files) (job : Job) (chunk : String) :
    Extends (logFile job) fs.logs (dataCallback fs job chunk).logs :=
  appendFileSync_extends _ _ _

theorem foldl_dataCallback_extends (job : Job) (chunks : List String) :
    ∀ fs : Files, Extends (logFile job) fs.logs
      (chunks.foldl (fun f c => dataCallback f job c) fs).logs := by
  induction chunks with
  | nil => intro fs; exact Extends.rfl _ _
  | cons c cs ih =>
    intro fs
    exact (dataCallback_extends fs job c).trans (ih _)

theorem extends_ite_append (file : String) (l : Logs) (c : Prop) [Decidable c] (text : String) :
    Extends file l (if c then appendFileSync l file text else l) := by
  split
  · exact appendFileSync_extends _ _ _
  · exact Extends.rfl _ _

theorem extends_match_append (file : String) (l : Logs) (e : Option String)
    (text : String → String) :
    Extends file l
      (match e with
       | some msg => appendFileSync l file (text msg)
       | none => l) := by
  cases e with
  | none => exact Extends.rfl _ _
  | some msg => exact appendFileSync_extends _ _ _

theorem execCallback_extends (maxRetry : Nat) (r : ExecResult) (fs : Files) (job : Job) :
    Extends (logFile job) fs.logs (execCallback maxRetry r fs job).1.logs ∧
    (((execCallback maxRetry r fs job).1.logs (logFile job)).isSome = true) := by
  unfold execCallback
  refine ⟨?_, appendFileSync_isSome _ _ _⟩
  refine Extends.trans ?_ (appendFileSync_extends _ _ _)
  refine Extends.trans ?_
    (extends_match_append (logFile job) _ r.error (fun msg => "ERROR: " ++ msg ++ "\n"))
  refine Extends.trans ?_
    (extends_ite_append (logFile job) _ (r.stderr ≠ "") ("STDERR:\n" ++ r.stderr ++ "\n"))
  exact extends_ite_append (logFile job) _ (r.stdout ≠ "") ("STDOUT:\n" ++ r.stdout ++ "\n")

theorem timerCallback_extends (maxRetry timeoutMs now : Nat) (fs : Files) (job : Job) :
    Extends (logFile job) fs.logs (timerCallback maxRetry timeoutMs now fs job).1.logs ∧
    (((timerCallback maxRetry timeoutMs now fs job).1.logs (logFile job)).isSome = true) :=
  ⟨appendFileSync_extends _ _ _, appendFileSync_isSome _ _ _⟩

theorem lateCallback_extends (maxRetry : Nat) (o : Outcome) (fs : Files) (job : Job) :
    Extends (logFile job) fs.logs (lateCallback maxRetry o fs job).1.logs := by
  cases o with
  | exited chunks r => exact Extends.rfl _ _
  | timedOut chunks now late => exact (execCallback_extends _ _ _ _).1

/-- After a whole attempt the log is the header followed by text of this
attempt. -/
theorem RunjobSettled_log (baseDelay maxRetry timeoutMs : Nat) (o : Outcome) (fs : Files)
    (job : Job) :
    ∃ t, (RunjobSettled baseDelay maxRetry timeoutMs o fs job).1.logs (logFile job) =
      some (logHeader job ++ t) := by
  have hstart : (RunjobStart fs job).1.logs (logFile job) = some (logHeader job) := by
    simp [RunjobStart, writeFileSync, logFile, logHeader]
  have hfold := fun chunks =>
    foldl_dataCallback_extends (RunjobStart fs job).2 chunks (RunjobStart fs job).1
  have hid : ∀ j : Job, j.id = job.id → logFile j = logFile job := by
    intro j hj
    simp [logFile, hj]
  cases o with
  | exited chunks r =>
    have h1 := execCallback_extends maxRetry r
      (chunks.foldl (fun f c => dataCallback f (RunjobStart fs job).2 c) (RunjobStart fs job).1)
      (RunjobStart fs job).2
    obtain ⟨t, ht⟩ := some_append_of_extends ((hfold chunks).trans h1.1) h1.2
    refine ⟨t, ?_⟩
    have hlf : logFile (RunjobStart fs job).2 = logFile job := rfl
    rw [hlf, hstart] at ht
    exact ht
  | timedOut chunks now late =>
    have h1 := timerCallback_extends maxRetry timeoutMs now
      (chunks.foldl (fun f c => dataCallback f (RunjobStart fs job).2 c) (RunjobStart fs job).1)
      (RunjobStart fs job).2
    have h2 := execCallback_extends maxRetry late
      (Runjob baseDelay maxRetry timeoutMs (Outcome.timedOut chunks now late) fs job).1
      (Runjob baseDelay maxRetry timeoutMs (Outcome.timedOut chunks now late) fs job).2
    have h3 : Extends (logFile job) (RunjobStart fs job).1.logs
        (Runjob baseDelay maxRetry timeoutMs (Outcome.timedOut chunks now late) fs job).1.logs :=
      (hfold chunks).trans h1.1
    have hid2 : logFile
        (Runjob baseDelay maxRetry timeoutMs (Outcome.timedOut chunks now late) fs job).2 =
        logFile job := hid _ rfl
    rw [hid2] at h2
    obtain ⟨t, ht⟩ := some_append_of_extends (h3.trans h2.1) h2.2
    refine ⟨t, ?_⟩
    rw [hstart] at ht
    exact ht

end Log

/-- C8 (amended): the per-job log is append-only within an attempt, not across
retries.  The log is created fresh at the start of every attempt, the first
and every later one: the prologue of `Runjob` leaves it holding the header
(naming the job and its command) alone, whatever it held before.  Every other
write `Runjob` makes (the `data` listeners, the completion callback, the timer
callback) appends to the log as it stands.  Hence the log after any attempt
begins with the header. -/
theorem log_is_rewritten_by_every_attempt (baseDelay maxRetry timeoutMs : Nat) (o : Outcome)
    (fs : Files) (job : Job) :
    (RunjobStart fs job).1.logs (logFile job) = some (logHeader job) ∧
    (∀ (fs1 : Files) (chunk : String), ∃ t,
      (dataCallback fs1 job chunk).logs (logFile job) =
        some ((fs1.logs (logFile job)).getD "" ++ t)) ∧
    (∀ (fs1 : Files) (r : ExecResult), ∃ t,
      (execCallback maxRetry r fs1 job).1.logs (logFile job) =
        some ((fs1.logs (logFile job)).getD "" ++ t)) ∧
    (∀ (fs1 : Files) (now : Nat), ∃ t,
      (timerCallback maxRetry timeoutMs now fs1 job).1.logs (logFile job) =
        some ((fs1.logs (logFile job)).getD "" ++ t)) ∧
    (∃ t, (RunjobSettled baseDelay maxRetry timeoutMs o fs job).1.logs (logFile job) =
      some (logHeader job ++ t)) := by
  refine ⟨?_, ?_, ?_, ?_, RunjobSettled_log baseDelay maxRetry timeoutMs o fs job⟩
  · simp [RunjobStart, writeFileSync, logFile, logHeader]
  · intro fs1 chunk
    exact ⟨chunk, appendFileSync_same _ _ _⟩
  · intro fs1 r
    exact some_append_of_extends (execCallback_extends maxRetry r fs1 job).1
      (execCallback_extends maxRetry r fs1 job).2
  · intro fs1 now
    exact some_append_of_extends (timerCallback_extends maxRetry timeoutMs now fs1 job).1
      (timerCallback_extends maxRetry timeoutMs now fs1 job).2

/-- C8 (as stated, refuted): `./flaky.sh` fails on its first attempt and
succeeds on its second.  The log after the second attempt does not start with
the log as it stood after the first: the error line and the final-state line
of the first attempt are gone. -/
theorem log_of_earlier_attempt_is_lost :
    sampleAttempt1.1.logs "j2.log" =
      some ("--- Log for Job j2 ---\nCommand: ./flaky.sh\n\n" ++
        "ERROR: Command failed: ./flaky.sh\n\n" ++ "\nFinal state: failed\n") ∧
    sampleAttempt2.1.logs "j2.log" =
      some ("--- Log for Job j2 ---\nCommand: ./flaky.sh\n\n" ++
        "ok\n" ++ "STDOUT:\nok\n\n" ++ "\nFinal state: completed\n") ∧
    (runWorker sampleBackoff 2 3
        (fun i => if i < 1 then Outcome.exited [] sampleFlakyFailure
          else Outcome.exited ["ok\n"] sampleFlakySuccess) sampleFlakyRun).map
        (fun r => r.files.logs "j2.log") = some (sampleAttempt2.1.logs "j2.log") ∧
    ¬ ∃ t, "--- Log for Job j2 ---\nCommand: ./flaky.sh\n\n" ++
        "ok\n" ++ "STDOUT:\nok\n\n" ++ "\nFinal state: completed\n" =
      ("--- Log for Job j2 ---\nCommand: ./flaky.sh\n\n" ++
        "ERROR: Command failed: ./flaky.sh\n\n" ++ "\nFinal state: failed\n") ++ t := by
  refine ⟨by decide, by decide, by decide, ?_⟩
  rintro ⟨t, ht⟩
  have h := congrArg String.length ht
  simp only [String.length_append] at h
  have h1 : ("--- Log for Job j2 ---\nCommand: ./flaky.sh\n\n" : String).length = 44 := by
    decide
  have h2 : ("ok\n" : String).length = 3 := by decide
  have h3 : ("STDOUT:\nok\n\n" : String).length = 12 := by decide
  have h4 : ("\nFinal state: completed\n" : String).length = 24 := by decide
  have h5 : ("ERROR: Command failed: ./flaky.sh\n\n" : String).length = 35 := by decide
  have h6 : ("\nFinal state: failed\n" : String).length = 21 := by decide
  omega

/-! ## The run of `processJobs`: what stays unchanged -/

section Frame

theorem derefAll_range (heap : List Job) :
    derefAll heap (List.range heap.length) = heap := by
  unfold derefAll
  induction heap with
  | nil => rfl
  | cons a as ih =>
    rw [List.length_cons, List.range_succ_eq_map, List.filterMap_cons]
    simp only [List.getElem?_cons_zero, List.filterMap_map]
    have hf : ((fun r => (a :: as)[r]?) ∘ Nat.succ) = fun r => as[r]? := by
      funext r
      simp
    rw [hf, ih]

theorem mapRefs_range (heap : List Job) (u : Nat) (hnd : (heap.map Job.id).Nodup) :
    mapRefs heap u (List.range heap.length) = List.range heap.length := by
  unfold mapRefs
  conv_rhs => rw [← List.map_id (List.range heap.length)]
  apply List.map_congr_left
  intro r hr
  rw [List.mem_range] at hr
  split
  · next h =>
    have h1 : (heap.map Job.id)[r]? = (heap.map Job.id)[u]? := by
      simpa [List.getElem?_map] using h
    exact (List.getElem?_inj (by simpa using hr) hnd h1).symm
  · rfl

theorem set_ids (heap : List Job) (ref : Nat) (job job1 : Job)
    (hget : heap[ref]? = some job) (hid : job1.id = job.id) :
    (heap.set ref job1).map Job.id = heap.map Job.id := by
  apply List.ext_getElem?
  intro i
  simp only [List.getElem?_map, List.getElem?_set]
  by_cases h : ref = i
  · subst h
    have hlt : ref < heap.length := by
      rcases Nat.lt_or_ge ref heap.length with h | h
      · exact h
      · rw [List.getElem?_eq_none h] at hget
        cases hget
    simp [hlt, hget, hid]
  · simp [h]

theorem upsert_frame (jobs0 : List Job) (d : Disk) (job : Job) (ref : Nat) (batch : List Nat)
    (hnd : (jobs0.map Job.id).Nodup)
    (hids : (loadJobs d).map Job.id = jobs0.map Job.id)
    (hframe : ∀ i, i ∉ batch → (loadJobs d)[i]? = jobs0[i]?)
    (href : ref ∈ batch) (hjob : (jobs0.map Job.id)[ref]? = some job.id) :
    (loadJobs (upsert d job)).map Job.id = jobs0.map Job.id ∧
    ∀ i, i ∉ batch → (loadJobs (upsert d job))[i]? = jobs0[i]? := by
  constructor
  · simp only [upsert, loadJobs_saveJobs, map_replaceById_ids, hids]
  · intro i hi
    simp only [upsert, loadJobs_saveJobs, List.getElem?_map]
    rw [hframe i hi]
    cases hx : jobs0[i]? with
    | none => rfl
    | some x =>
      have hne : x.id ≠ job.id := by
        intro he
        have h1 : (jobs0.map Job.id)[i]? = (jobs0.map Job.id)[ref]? := by
          rw [hjob, List.getElem?_map, hx]
          simp [he]
        have hlt : i < (jobs0.map Job.id).length := by
          rcases Nat.lt_or_ge i jobs0.length with h | h
          · simpa using h
          · rw [List.getElem?_eq_none h] at hx
            cases hx
        have := List.getElem?_inj hlt hnd h1
        exact hi (this ▸ href)
      simp [replaceById, hne]

theorem execCallback_id (maxRetry : Nat) (r : ExecResult) (fs : Files) (job : Job) :
    (execCallback maxRetry r fs job).2.id = job.id := by
  rw [execCallback_job]
  cases r.error <;> rfl

theorem execCallback_disk (maxRetry : Nat) (r : ExecResult) (fs : Files) (job : Job) :
    (execCallback maxRetry r fs job).1.disk = fs.disk := rfl

theorem Inv.callback {jobs0 : List Job} {batch : List Nat} {p : Pool}
    (hnd : (jobs0.map Job.id).Nodup) (h : Inv jobs0 batch p) (ref : Nat) (job job1 : Job)
    (href : ref ∈ batch) (hget : p.heap[ref]? = some job) (hid : job1.id = job.id) (q : Pool)
    (hheap : q.heap = p.heap.set ref job1) (hjobs : q.jobs = p.jobs)
    (hdisk : q.files.disk = p.files.disk ∨ q.files.disk = upsert p.files.disk job1)
    (htasks : ∀ k ∈ q.tasks, k.ref ∈ batch) : Inv jobs0 batch q := by
  have hjob : (jobs0.map Job.id)[ref]? = some job1.id := by
    rw [← h.heap_ids, List.getElem?_map, hget, hid]
    rfl
  refine ⟨?_, ?_, ?_, ?_, ?_, htasks⟩
  · rw [hheap, set_ids _ _ _ _ hget hid, h.heap_ids]
  · intro i hi
    have hne : ref ≠ i := fun he => hi (he ▸ href)
    rw [hheap, List.getElem?_set_ne hne]
    exact h.heap_frame i hi
  · rw [hjobs, h.jobs_refs]
  · rcases hdisk with hd | hd
    · rw [hd]; exact h.disk_ids
    · rw [hd]
      exact (upsert_frame jobs0 _ job1 ref batch hnd h.disk_ids h.disk_frame href hjob).1
  · rcases hdisk with hd | hd
    · rw [hd]; exact h.disk_frame
    · rw [hd]
      exact (upsert_frame jobs0 _ job1 ref batch hnd h.disk_ids h.disk_frame href hjob).2

theorem Inv.heap_length {jobs0 : List Job} {batch : List Nat} {p : Pool}
    (h : Inv jobs0 batch p) : p.heap.length = jobs0.length := by
  have := congrArg List.length h.heap_ids
  simpa using this

theorem Inv.saved {jobs0 : List Job} {batch : List Nat} {p : Pool}
    (h : Inv jobs0 batch p) (q : Pool) (hheap : q.heap = p.heap) (hjobs : q.jobs = p.jobs)
    (hdisk : q.files.disk = some p.heap) (htasks : ∀ k ∈ q.tasks, k.ref ∈ batch) :
    Inv jobs0 batch q := by
  refine ⟨?_, ?_, ?_, ?_, ?_, htasks⟩
  · rw [hheap]; exact h.heap_ids
  · rw [hheap]; exact h.heap_frame
  · rw [hjobs]; exact h.jobs_refs
  · rw [hdisk]; exact h.heap_ids
  · rw [hdisk]; exact h.heap_frame

theorem persistRefs_eq {jobs0 : List Job} {batch : List Nat} {p : Pool}
    (hnd : (jobs0.map Job.id).Nodup) (h : Inv jobs0 batch p) (u : Nat) :
    (persistRefs u p).heap = p.heap ∧ (persistRefs u p).jobs = p.jobs ∧
    (persistRefs u p).files.disk = some p.heap ∧ (persistRefs u p).tasks = p.tasks ∧
    (persistRefs u p).files.logs = p.files.logs ∧ (persistRefs u p).returned = p.returned := by
  have hlen := h.heap_length
  have hnd1 : (p.heap.map Job.id).Nodup := by rw [h.heap_ids]; exact hnd
  have hm : mapRefs p.heap u p.jobs = p.jobs := by
    rw [h.jobs_refs, ← hlen]
    exact mapRefs_range p.heap u hnd1
  refine ⟨rfl, hm, ?_, rfl, rfl, rfl⟩
  simp only [persistRefs, saveJobs, hm]
  rw [h.jobs_refs, ← hlen, derefAll_range]

theorem Inv.of_persistRefs {jobs0 : List Job} {batch : List Nat} {p : Pool}
    (hnd : (jobs0.map Job.id).Nodup) (h : Inv jobs0 batch p) (u : Nat) :
    Inv jobs0 batch (persistRefs u p) := by
  obtain ⟨h1, h2, h3, h4, _, _⟩ := persistRefs_eq hnd h u
  exact h.saved _ h1 h2 h3 (by rw [h4]; exact h.task_refs)

theorem iterate_persistRefs {jobs0 : List Job} {batch : List Nat}
    (hnd : (jobs0.map Job.id).Nodup) (u : Nat) :
    ∀ (n : Nat) (p : Pool), Inv jobs0 batch p →
      Inv jobs0 batch ((persistRefs u)^[n] p) ∧
      ((persistRefs u)^[n] p).heap = p.heap ∧ ((persistRefs u)^[n] p).tasks = p.tasks ∧
      ((persistRefs u)^[n] p).jobs = p.jobs ∧
      ((persistRefs u)^[n] p).returned = p.returned := by
  intro n
  induction n with
  | zero => intro p h; exact ⟨h, rfl, rfl, rfl, rfl⟩
  | succ n ih =>
    intro p h
    rw [Function.iterate_succ_apply]
    obtain ⟨h1, h2, _, h4, _, h6⟩ := persistRefs_eq hnd h u
    obtain ⟨i1, i2, i3, i4, i5⟩ := ih (persistRefs u p) (h.of_persistRefs hnd u)
    exact ⟨i1, i2.trans h1, i3.trans h4, i4.trans h2, i5.trans h6⟩

theorem finish_eq {jobs0 : List Job} {batch : List Nat} {p : Pool}
    (h : Inv jobs0 batch p) :
    (finish p).heap = p.heap ∧ (finish p).jobs = p.jobs ∧ (finish p).tasks = p.tasks ∧
    ((finish p).files.disk = p.files.disk ∨ (finish p).files.disk = some p.heap) ∧
    ((finish p).returned = true → p.returned = false → (finish p).files.disk = some p.heap) := by
  unfold finish
  split
  · refine ⟨rfl, rfl, rfl, Or.inr ?_, fun _ _ => ?_⟩ <;>
    · simp only [saveJobs]
      rw [h.jobs_refs, ← h.heap_length, derefAll_range]
  · refine ⟨rfl, rfl, rfl, Or.inl rfl, fun h1 h2 => ?_⟩
    rw [h1] at h2
    cases h2

theorem Inv.of_finish {jobs0 : List Job} {batch : List Nat} {p : Pool}
    (h : Inv jobs0 batch p) : Inv jobs0 batch (finish p) := by
  obtain ⟨h1, h2, h3, h4, _⟩ := finish_eq h
  rcases h4 with h4 | h4
  · exact ⟨by rw [h1]; exact h.heap_ids, by rw [h1]; exact h.heap_frame,
      by rw [h2]; exact h.jobs_refs, by rw [h4]; exact h.disk_ids,
      by rw [h4]; exact h.disk_frame, by rw [h3]; exact h.task_refs⟩
  · exact h.saved _ h1 h2 h4 (by rw [h3]; exact h.task_refs)

theorem Inv.setTask {jobs0 : List Job} {batch : List Nat} {p : Pool}
    (h : Inv jobs0 batch p) (t : Nat) (task : Task) (href : task.ref ∈ batch) :
    Inv jobs0 batch { p with tasks := p.tasks.set t task } := by
  refine ⟨h.heap_ids, h.heap_frame, h.jobs_refs, h.disk_ids, h.disk_frame, ?_⟩
  intro k hk
  rcases List.mem_or_eq_of_mem_set hk with hk | hk
  · exact h.task_refs k hk
  · rw [hk]; exact href

theorem Inv.of_resume {jobs0 : List Job} {batch : List Nat} {p : Pool}
    (hnd : (jobs0.map Job.id).Nodup) (h : Inv jobs0 batch p) (maxRetries t : Nat)
    (task : Task) (job : Job) (href : task.ref ∈ batch) :
    Inv jobs0 batch (resume maxRetries p t task job) := by
  unfold resume
  split
  · exact h.setTask t _ href
  · exact ((iterate_persistRefs hnd task.ref (task.depth + 1) p h).1.setTask t
      { task with phase := Phase.done, result := some job } href).of_finish

theorem set_refs (tasks : List Task) (t : Nat) (task task1 : Task)
    (hget : tasks[t]? = some task) (href : task1.ref = task.ref) :
    (tasks.set t task1).map Task.ref = tasks.map Task.ref := by
  apply List.ext_getElem?
  intro i
  simp only [List.getElem?_map, List.getElem?_set]
  by_cases h : t = i
  · subst h
    have hlt : t < tasks.length := by
      rcases Nat.lt_or_ge t tasks.length with h | h
      · exact h
      · rw [List.getElem?_eq_none h] at hget
        cases hget
    simp [hlt, hget, href]
  · simp [h]

theorem iterate_persistRefs_tasks (u : Nat) :
    ∀ (n : Nat) (p : Pool), ((persistRefs u)^[n] p).tasks = p.tasks := by
  intro n
  induction n with
  | zero => intro p; rfl
  | succ n ih =>
    intro p
    rw [Function.iterate_succ_apply, ih]
    rfl

theorem finish_tasks (p : Pool) : (finish p).tasks = p.tasks := by
  unfold finish
  split <;> rfl

theorem resume_refs (maxRetries : Nat) (p : Pool) (t : Nat) (task0 task : Task) (job : Job)
    (hget : p.tasks[t]? = some task0) (href : task.ref = task0.ref) :
    (resume maxRetries p t task job).tasks.map Task.ref = p.tasks.map Task.ref := by
  unfold resume
  split
  · exact set_refs _ _ _ _ hget href
  · simp only [finish_tasks]
    have ht := iterate_persistRefs_tasks task.ref (task.depth + 1) p
    rw [ht]
    exact set_refs _ _ _ _ hget href

theorem startAttempt_inv {jobs0 : List Job} {batch : List Nat} {p q : Pool}
    (hnd : (jobs0.map Job.id).Nodup) (h : Inv jobs0 batch p) (ref : Nat) (href : ref ∈ batch)
    (hs : startAttempt p ref = some q) : Inv jobs0 batch q ∧ q.tasks = p.tasks := by
  unfold startAttempt at hs
  split at hs
  · cases hs
  · next job hjob =>
    simp only [Option.some.injEq] at hs
    subst hs
    exact ⟨h.callback hnd ref job (RunjobStart p.files job).2 href hjob rfl _ rfl rfl
      (Or.inr rfl) h.task_refs, rfl⟩

/-- Every event keeps the invariant and the list of dispatched references. -/
theorem step_inv {jobs0 : List Job} {batch : List Nat} {p q : Pool} (maxRetries : Nat)
    (e : Event) (hnd : (jobs0.map Job.id).Nodup) (h : Inv jobs0 batch p)
    (hs : step maxRetries p e = some q) :
    Inv jobs0 batch q ∧ q.tasks.map Task.ref = p.tasks.map Task.ref := by
  unfold step at hs
  split at hs
  · cases hs
  · next task htask =>
    have href : task.ref ∈ batch := h.task_refs task (List.getElem?_mem htask)
    split at hs
    · cases hs
    · next job hjob =>
      cases e with
      | data t chunk =>
        simp only at hs
        split at hs
        · simp only [Option.some.injEq] at hs
          subst hs
          exact ⟨⟨h.heap_ids, h.heap_frame, h.jobs_refs, h.disk_ids, h.disk_frame, h.task_refs⟩,
            rfl⟩
        · cases hs
      | exit t r =>
        simp only at hs
        split at hs
        · simp only [Option.some.injEq] at hs
          subst hs
          have h1 : Inv jobs0 batch
              { p with files := (execCallback maxRetries r p.files job).1,
                       heap := p.heap.set task.ref (execCallback maxRetries r p.files job).2 } :=
            h.callback hnd task.ref job _ href hjob (execCallback_id _ _ _ _) _ rfl rfl
              (Or.inl rfl) h.task_refs
          exact ⟨h1.of_resume hnd maxRetries t task _ href,
            resume_refs maxRetries _ t task task _ htask rfl⟩
        · cases hs
      | timeout t now =>
        simp only at hs
        split at hs
        · simp only [Option.some.injEq] at hs
          subst hs
          have h1 : Inv jobs0 batch
              { p with files := (timerCallback maxRetries DEFAULT_JOB_TIMEOUT now p.files job).1,
                       heap := p.heap.set task.ref
                         (timerCallback maxRetries DEFAULT_JOB_TIMEOUT now p.files job).2 } :=
            h.callback hnd task.ref job
              (timerCallback maxRetries DEFAULT_JOB_TIMEOUT now p.files job).2 href hjob rfl _
              rfl rfl (Or.inr rfl) h.task_refs
          exact ⟨h1.of_resume hnd maxRetries t _ _ href,
            resume_refs maxRetries _ t task _ _ htask rfl⟩
        · cases hs
      | lateExit t k =>
        simp only at hs
        split at hs
        · simp only [Option.some.injEq] at hs
          subst hs
          refine ⟨?_, set_refs _ _ _ _ htask rfl⟩
          refine h.callback hnd task.ref job _ href hjob (execCallback_id _ _ _ _) _ rfl rfl
            (Or.inl rfl) ?_
          intro k1 hk1
          rcases List.mem_or_eq_of_mem_set hk1 with hk | hk
          · exact h.task_refs k1 hk
          · rw [hk]; exact href
        · cases hs
      | backoffElapsed t =>
        simp only at hs
        split at hs
        · cases hst : startAttempt p task.ref with
          | none => simp [hst] at hs
          | some p1 =>
            simp only [hst, Option.map_some', Option.some.injEq] at hs
            subst hs
            obtain ⟨h1, h2⟩ := startAttempt_inv hnd h task.ref href hst
            refine ⟨h1.setTask t _ href, ?_⟩
            simp only [h2]
            exact set_refs _ _ _ _ htask rfl
        · cases hs

theorem runEvents_inv {jobs0 : List Job} {batch : List Nat} (maxRetries : Nat)
    (hnd : (jobs0.map Job.id).Nodup) :
    ∀ (es : List Event) (p q : Pool), Inv jobs0 batch p → runEvents maxRetries p es = some q →
      Inv jobs0 batch q ∧ q.tasks.map Task.ref = p.tasks.map Task.ref := by
  intro es
  induction es with
  | nil =>
    intro p q h hr
    simp only [runEvents, Option.some.injEq] at hr
    subst hr
    exact ⟨h, rfl⟩
  | cons e es ih =>
    intro p q h hr
    rw [runEvents] at hr
    split at hr
    · cases hr
    · next p1 hp1 =>
      obtain ⟨h1, h2⟩ := step_inv maxRetries e hnd h hp1
      obtain ⟨h3, h4⟩ := ih p1 q h1 hr
      exact ⟨h3, h4.trans h2⟩

theorem dispatch_inv {jobs0 : List Job} {batch : List Nat}
    (hnd : (jobs0.map Job.id).Nodup) :
    ∀ (refs : List Nat) (p q : Pool), Inv jobs0 batch p → (∀ r ∈ refs, r ∈ batch) →
      dispatch p refs = some q →
      Inv jobs0 batch q ∧ q.tasks.map Task.ref = p.tasks.map Task.ref ++ refs := by
  intro refs
  induction refs with
  | nil =>
    intro p q h _ hd
    simp only [dispatch, Option.some.injEq] at hd
    subst hd
    exact ⟨h, by simp⟩
  | cons r rs ih =>
    intro p q h hrefs hd
    rw [dispatch] at hd
    split at hd
    · cases hd
    · next p1 hp1 =>
      obtain ⟨h1, h2⟩ := startAttempt_inv hnd h r (hrefs r (by simp)) hp1
      have h3 : Inv jobs0 batch
          { p1 with tasks := p1.tasks ++
            [{ ref := r, phase := Phase.running, depth := 0, zombies := 0, result := none }] } := by
        refine ⟨h1.heap_ids, h1.heap_frame, h1.jobs_refs, h1.disk_ids, h1.disk_frame, ?_⟩
        intro k hk
        simp only [List.mem_append, List.mem_singleton] at hk
        rcases hk with hk | hk
        · exact h1.task_refs k hk
        · rw [hk]; exact hrefs r (by simp)
      obtain ⟨h4, h5⟩ := ih _ q h3 (fun x hx => hrefs x (by simp [hx])) hd
      refine ⟨h4, ?_⟩
      rw [h5, h2]
      simp

theorem startAttempt_isSome (p : Pool) (ref : Nat) (h : ref < p.heap.length) :
    ∃ q, startAttempt p ref = some q ∧ q.heap.length = p.heap.length := by
  unfold startAttempt
  rw [List.getElem?_eq_getElem h]
  exact ⟨_, rfl, by simp⟩

theorem dispatch_isSome :
    ∀ (refs : List Nat) (p : Pool), (∀ r ∈ refs, r < p.heap.length) →
      ∃ q, dispatch p refs = some q := by
  intro refs
  induction refs with
  | nil => intro p _; exact ⟨p, rfl⟩
  | cons r rs ih =>
    intro p h
    obtain ⟨p1, hp1, hlen⟩ := startAttempt_isSome p r (h r (by simp))
    rw [dispatch, hp1]
    exact ih _ (fun x hx => by
      have := h x (by simp [hx])
      simpa [hlen] using this)

theorem batchRefs_lt (jobs : List Job) (workers : Nat) :
    ∀ r ∈ batchRefs jobs workers, r < jobs.length := by
  intro r hr
  simp only [batchRefs, List.mem_map] at hr
  obtain ⟨x, hx, rfl⟩ := hr
  have hx1 : x ∈ jobs.enum := List.mem_of_mem_filter (List.mem_of_mem_take hx)
  rw [List.mem_enum_iff_getElem?] at hx1
  rcases Nat.lt_or_ge x.1 jobs.length with h | h
  · exact h
  · rw [List.getElem?_eq_none h] at hx1
    cases hx1

/-- The objects of the batch, read in the loaded collection, are the first
`workers` eligible jobs in store order. -/
theorem derefAll_batchRefs (jobs : List Job) (workers : Nat) :
    derefAll jobs (batchRefs jobs workers) = activeBatch jobs workers := by
  unfold derefAll batchRefs activeBatch activeJobs
  rw [List.filterMap_map]
  have h1 : List.filterMap ((fun r => jobs[r]?) ∘ Prod.fst)
      ((jobs.enum.filter (fun x => eligible x.2)).take workers) =
      List.filterMap (some ∘ Prod.snd)
        ((jobs.enum.filter (fun x => eligible x.2)).take workers) := by
    apply List.filterMap_congr
    intro x hx
    have hx1 : x ∈ jobs.enum := List.mem_of_mem_filter (List.mem_of_mem_take hx)
    rw [List.mem_enum_iff_getElem?] at hx1
    simpa using hx1
  rw [h1, List.filterMap_eq_map, List.map_take]
  have h2 : (jobs.enum.filter (fun x => eligible x.2)).map Prod.snd =
      (jobs.enum.map Prod.snd).filter eligible := by
    rw [List.filter_map]
    rfl
  rw [h2, List.enum_map_snd]

theorem batchRefs_length (jobs : List Job) (workers : Nat) :
    (batchRefs jobs workers).length = min workers (activeJobs jobs).length := by
  have h := congrArg List.length (derefAll_batchRefs jobs workers)
  have h1 : (derefAll jobs (batchRefs jobs workers)).length = (batchRefs jobs workers).length := by
    unfold derefAll
    have : List.filterMap (fun r => jobs[r]?) (batchRefs jobs workers) =
        List.filterMap (some ∘ fun r => jobs.getD r sampleJob) (batchRefs jobs workers) := by
      apply List.filterMap_congr
      intro r hr
      have hlt := batchRefs_lt jobs workers r hr
      simp [List.getElem?_eq_getElem hlt, List.getD_eq_getElem?_getD]
    rw [this, List.filterMap_eq_map, List.length_map]
  rw [← h1, h]
  simp [activeBatch]

theorem processJobsStart_isSome (workers : Nat) (fs : Files) :
    ∃ p, processJobsStart workers fs = some p := by
  unfold processJobsStart
  obtain ⟨q, hq⟩ := dispatch_isSome (batchRefs (loadJobs fs.disk) workers)
    { files := fs, heap := loadJobs fs.disk, jobs := List.range (loadJobs fs.disk).length,
      tasks := [], returned := false }
    (batchRefs_lt (loadJobs fs.disk) workers)
  exact ⟨finish q, by simp [hq]⟩

theorem processJobsStart_inv (workers : Nat) (fs : Files) (p : Pool)
    (hnd : ((loadJobs fs.disk).map Job.id).Nodup) (hs : processJobsStart workers fs = some p) :
    Inv (loadJobs fs.disk) (batchRefs (loadJobs fs.disk) workers) p ∧
    p.tasks.map Task.ref = batchRefs (loadJobs fs.disk) workers := by
  unfold processJobsStart at hs
  simp only [Option.map_eq_some'] at hs
  obtain ⟨q, hq, rfl⟩ := hs
  have h0 : Inv (loadJobs fs.disk) (batchRefs (loadJobs fs.disk) workers)
      { files := fs, heap := loadJobs fs.disk, jobs := List.range (loadJobs fs.disk).length,
        tasks := [], returned := false } :=
    ⟨rfl, fun _ _ => rfl, rfl, rfl, fun _ _ => rfl, fun k hk => by simp at hk⟩
  obtain ⟨h1, h2⟩ := dispatch_inv hnd _ _ q h0 (fun r hr => hr) hq
  refine ⟨h1.of_finish, ?_⟩
  rw [finish_tasks, h2]
  simp

end Frame

/-- C5: for every collection with pairwise distinct ids, every `workers` and
every run of `processJobs` (any outcomes, in any order of the events), one
retry loop is started per job of the batch, the batch being the first
`min(workers, n)` of the `n` jobs that are `pending` or `retry` at the start,
in store order; in the collection the run saves, every record outside the
batch (eligible jobs beyond that count and jobs in any other state) is the
loaded one, and the ids are the loaded ids in the same order.  The start of
the run itself never fails. -/
theorem processJobs_dispatches_first_eligible (baseDelay maxRetries workers : Nat)
    (fs : Files) (es : List Event) (p : Pool)
    (hnd : ((loadJobs fs.disk).map Job.id).Nodup)
    (hrun : processJobs baseDelay maxRetries workers fs es = some p) :
    (∃ p0, processJobs baseDelay maxRetries workers fs [] = some p0) ∧
    p.tasks.map Task.ref = batchRefs (loadJobs fs.disk) workers ∧
    derefAll (loadJobs fs.disk) (p.tasks.map Task.ref) =
      (activeJobs (loadJobs fs.disk)).take workers ∧
    p.tasks.length = min workers (activeJobs (loadJobs fs.disk)).length ∧
    (∀ i, i ∉ p.tasks.map Task.ref → (loadJobs p.files.disk)[i]? = (loadJobs fs.disk)[i]?) ∧
    (loadJobs p.files.disk).map Job.id = (loadJobs fs.disk).map Job.id := by
  unfold processJobs at hrun
  split at hrun
  · cases hrun
  · next p1 hp1 =>
    obtain ⟨h1, h2⟩ := processJobsStart_inv workers fs p1 hnd hp1
    obtain ⟨h3, h4⟩ := runEvents_inv maxRetries hnd es p1 p h1 hrun
    have hrefs : p.tasks.map Task.ref = batchRefs (loadJobs fs.disk) workers := h4.trans h2
    refine ⟨⟨p1, by simp [processJobs, hp1, runEvents]⟩, hrefs, ?_, ?_, ?_, h3.disk_ids⟩
    · rw [hrefs]
      exact derefAll_batchRefs _ _
    · have := congrArg List.length hrefs
      rw [List.length_map] at this
      rw [this]
      exact batchRefs_length _ _
    · intro i hi
      rw [hrefs] at hi
      exact h3.disk_frame i hi

/-- C5 at a concrete run: with two workers the loops of `a` and `b` are started,
`a` succeeds and `b` fails with no retry left, `processJobs` returns, and the
saved collection holds `j0` and `c` as they were loaded, with the four ids in
the loaded order. -/
theorem processJobs_dispatches_first_eligible_witness :
    ∃ p, processJobs 2 0 2 sampleStore [Event.exit 0 sampleSuccess, Event.exit 1 sampleFailure]
        = some p ∧
      p.returned = true ∧
      p.tasks.map Task.ref = [1, 2] ∧
      derefAll [sampleDone, sampleA, sampleB, sampleC] (p.tasks.map Task.ref) =
        [sampleA, sampleB] ∧
      (loadJobs p.files.disk)[0]? = some sampleDone ∧
      (loadJobs p.files.disk)[3]? = some sampleC ∧
      (loadJobs p.files.disk).map Job.id = ["j0", "a", "b", "c"] := by
  have hret : (processJobs 2 0 2 sampleStore
      [Event.exit 0 sampleSuccess, Event.exit 1 sampleFailure]).map (fun p => p.returned) =
      some true := by decide
  obtain ⟨p, hrun⟩ : ∃ p, processJobs 2 0 2 sampleStore
      [Event.exit 0 sampleSuccess, Event.exit 1 sampleFailure] = some p := by
    cases h : processJobs 2 0 2 sampleStore
        [Event.exit 0 sampleSuccess, Event.exit 1 sampleFailure] with
    | none => rw [h] at hret; cases hret
    | some p => exact ⟨p, rfl⟩
  rw [hrun] at hret
  simp only [Option.map_some', Option.some.injEq] at hret
  obtain ⟨_, h1, h2, _, h4, h5⟩ :=
    processJobs_dispatches_first_eligible 2 0 2 sampleStore
      [Event.exit 0 sampleSuccess, Event.exit 1 sampleFailure] p (by decide) hrun
  have hb : batchRefs (loadJobs sampleStore.disk) 2 = [1, 2] := by decide
  rw [hb] at h1
  refine ⟨p, hrun, hret, h1, ?_, ?_, ?_, h5⟩
  · rw [h1]; decide
  · exact h4 0 (by rw [h1]; decide)
  · exact h4 3 (by rw [h1]; decide)

/-! ## Two jobs of one batch -/

section Return

theorem iterate_persistRefs_returned (u : Nat) :
    ∀ (n : Nat) (p : Pool), ((persistRefs u)^[n] p).returned = p.returned := by
  intro n
  induction n with
  | zero => intro p; rfl
  | succ n ih =>
    intro p
    rw [Function.iterate_succ_apply, ih]
    rfl

theorem startAttempt_returned {p q : Pool} {ref : Nat} (hs : startAttempt p ref = some q) :
    q.returned = p.returned := by
  unfold startAttempt at hs
  split at hs
  · cases hs
  · simp only [Option.some.injEq] at hs
    subst hs
    rfl

theorem resume_returns_saved {jobs0 : List Job} {batch : List Nat} {p : Pool}
    (hnd : (jobs0.map Job.id).Nodup) (h : Inv jobs0 batch p) (maxRetries t : Nat)
    (task : Task) (job : Job) (href : task.ref ∈ batch) (h0 : p.returned = false)
    (h1 : (resume maxRetries p t task job).returned = true) :
    (resume maxRetries p t task job).files.disk =
      some (resume maxRetries p t task job).heap := by
  unfold resume at h1 ⊢
  split at h1
  · rw [if_pos (by assumption)]
    simp only at h1
    rw [h0] at h1
    cases h1
  · rw [if_neg (by assumption)]
    obtain ⟨i1, _, _, _, i5⟩ := iterate_persistRefs hnd task.ref (task.depth + 1) p h
    have hI := i1.setTask t { task with phase := Phase.done, result := some job } href
    obtain ⟨e1, _, _, _, e5⟩ := finish_eq hI
    have := e5 h1 (by simpa [h0] using i5)
    simp only at this e1 ⊢
    rw [this, e1]

/-- The event on which `processJobs` returns leaves in `jobs.json` the job
objects exactly as they are at that moment. -/
theorem step_returns_saved {jobs0 : List Job} {batch : List Nat} {p q : Pool}
    (maxRetries : Nat) (e : Event) (hnd : (jobs0.map Job.id).Nodup) (h : Inv jobs0 batch p)
    (h0 : p.returned = false) (hs : step maxRetries p e = some q) (h1 : q.returned = true) :
    q.files.disk = some q.heap := by
  unfold step at hs
  split at hs
  · cases hs
  · next task htask =>
    have href : task.ref ∈ batch := h.task_refs task (List.getElem?_mem htask)
    split at hs
    · cases hs
    · next job hjob =>
      cases e with
      | data t chunk =>
        simp only at hs
        split at hs
        · simp only [Option.some.injEq] at hs
          subst hs
          simp only at h1
          rw [h0] at h1
          cases h1
        · cases hs
      | exit t r =>
        simp only at hs
        split at hs
        · simp only [Option.some.injEq] at hs
          subst hs
          have hI : Inv jobs0 batch
              { p with files := (execCallback maxRetries r p.files job).1,
                       heap := p.heap.set task.ref (execCallback maxRetries r p.files job).2 } :=
            h.callback hnd task.ref job _ href hjob (execCallback_id _ _ _ _) _ rfl rfl
              (Or.inl rfl) h.task_refs
          exact resume_returns_saved hnd hI maxRetries t task _ href h0 h1
        · cases hs
      | timeout t now =>
        simp only at hs
        split at hs
        · simp only [Option.some.injEq] at hs
          subst hs
          have hI : Inv jobs0 batch
              { p with files := (timerCallback maxRetries DEFAULT_JOB_TIMEOUT now p.files job).1,
                       heap := p.heap.set task.ref
                         (timerCallback maxRetries DEFAULT_JOB_TIMEOUT now p.files job).2 } :=
            h.callback hnd task.ref job
              (timerCallback maxRetries DEFAULT_JOB_TIMEOUT now p.files job).2 href hjob rfl _
              rfl rfl (Or.inr rfl) h.task_refs
          exact resume_returns_saved hnd hI maxRetries t _ _ href h0 h1
        · cases hs
      | lateExit t k =>
        simp only at hs
        split at hs
        · simp only [Option.some.injEq] at hs
          subst hs
          simp only at h1
          rw [h0] at h1
          cases h1
        · cases hs
      | backoffElapsed t =>
        simp only at hs
        split at hs
        · cases hst : startAttempt p task.ref with
          | none => simp [hst] at hs
          | some p1 =>
            simp only [hst, Option.map_some', Option.some.injEq] at hs
            subst hs
            simp only at h1
            rw [startAttempt_returned hst, h0] at h1
            cases h1
        · cases hs

end Return

/-- C10 (the code at the failing input): `a` and `b` are dispatched together
with `maxRetries = 0` and both run into the timeout.  The timer of `a` fires:
its loop ends with `a` dead at `attempts = 1` and saves that.  The killed child
of `a` ends: its completion callback counts the attempt again.  The timer of
`b` fires: its loop ends, line 103 saves `jobs` and `processJobs` returns.  The
persisted record of `a` has `attempts = 2`, not the 1 its own loop reached and
saved.  When the child of `a` ends only after the timer of `b`, the persisted
record has `attempts = 1`. -/
theorem late_callback_changes_persisted_record :
    (processJobs 2 0 2 sampleStore [Event.timeout 0 200]).map
        (fun p => (p.returned, p.tasks.map (fun k => k.result.map Job.attempts),
          (loadJobs p.files.disk).map (fun j => (j.id, j.state, j.attempts)))) =
      some (false, [some 1, none],
        [("j0", JobState.completed, 0), ("a", JobState.dead, 1),
         ("b", JobState.processing, 0), ("c", JobState.pending, 0)]) ∧
    (processJobs 2 0 2 sampleStore
        [Event.timeout 0 200, Event.lateExit 0 sampleKilled, Event.timeout 1 205]).map
        (fun p => (p.returned, p.tasks.map (fun k => k.result.map Job.attempts),
          (loadJobs p.files.disk).map (fun j => (j.id, j.state, j.attempts)))) =
      some (true, [some 1, some 1],
        [("j0", JobState.completed, 0), ("a", JobState.dead, 2),
         ("b", JobState.dead, 1), ("c", JobState.pending, 0)]) ∧
    (processJobs 2 0 2 sampleStore
        [Event.timeout 0 200, Event.timeout 1 205, Event.lateExit 0 sampleKilled]).map
        (fun p => (p.returned, p.tasks.map (fun k => k.result.map Job.attempts),
          (loadJobs p.files.disk).map (fun j => (j.id, j.state, j.attempts)))) =
      some (true, [some 1, some 1],
        [("j0", JobState.completed, 0), ("a", JobState.dead, 1),
         ("b", JobState.dead, 1), ("c", JobState.pending, 0)]) := by
  refine ⟨by decide, by decide, by decide⟩

end QueueCTL
